import Mathlib

/-!
# Verification of the Hybrid-Quant backtesting engine core

Shallow embedding of the C++ backtesting engine (CircularBuffer.hpp,
Indicators.hpp, Strategies, RiskManager, ExecutionEngine, Engine::run,
features.cpp) over exact rational arithmetic.  `double` values are modelled
as `ℚ`; the two transcendental library calls `std::log` and `std::sqrt`,
and the calendar-day extraction performed by `std::localtime`, are not
rational functions, so the embedding is parameterised by an environment
`Env` carrying arbitrary functions `logQ`, `sqrtQ`, `dayOf` standing for
them.  Theorems quantify over the environment (or constrain it exactly at
the points where the real functions' values matter).

The `CircularBuffer` is modelled by its logical contents (index 0 = most
recently pushed element), which is the only view the indicator code reads
through `get`/`size`/`is_full`.
-/

namespace Quant

/-! ## Kernel-evaluable exact rational arithmetic

Mathlib's `Rat` operations are `@[irreducible]`, so terms built from them
cannot be evaluated by `decide`.  The model therefore uses the following
wrappers, which build canonical `Rat.mk'` values directly and are each
proved equal to the corresponding Mathlib operation (`qadd_eq`, …), so
theorems can reason with ordinary field arithmetic while concrete runs
still evaluate in the kernel. -/

theorem mkCanon_eq_div (n : Int) (d : Nat) (h1 : d ≠ 0) (h2 : n.natAbs.Coprime d) :
    (⟨n, d, h1, h2⟩ : ℚ) = (n : ℚ) / (d : ℚ) := by
  rw [Rat.mk'_eq_divInt, Rat.divInt_eq_div]
  norm_num

/-- Canonical rational `n / d` (0 when `d = 0`, matching `Rat` division). -/
def qmk (n d : Int) : ℚ :=
  if hd : d = 0 then
    ⟨0, 1, one_ne_zero, Nat.coprime_one_right _⟩
  else
    let s : Int := if d < 0 then -1 else 1
    let n' := s * n
    let d' := (s * d).toNat
    have hd' : d' ≠ 0 := by
      simp only [d', s]
      split_ifs with h <;> omega
    let g := n'.natAbs.gcd d'
    have hg : g ≠ 0 := fun h => hd' (Nat.eq_zero_of_gcd_eq_zero_right h)
    have hgn : (g : Int) ∣ n' := Int.natCast_dvd.mpr (Nat.gcd_dvd_left _ _)
    ⟨n' / (g : Int), d' / g,
      (Nat.div_ne_zero_iff hg).mpr (Nat.le_of_dvd (Nat.pos_of_ne_zero hd') (Nat.gcd_dvd_right _ _)),
      by
        have habs : (n' / (g : Int)).natAbs = n'.natAbs / g := Int.natAbs_ediv n' (g : Int) hgn
        rw [habs]
        exact Nat.coprime_div_gcd_div_gcd (Nat.pos_of_ne_zero hg)⟩

theorem qmk_eq (n d : Int) : qmk n d = (n : ℚ) / (d : ℚ) := by
  by_cases hd : d = 0
  · subst hd
    simp only [qmk, dif_pos rfl, mkCanon_eq_div]
    norm_num
  · simp only [qmk, dif_neg hd, mkCanon_eq_div]
    set s : Int := if d < 0 then -1 else 1 with hs
    have hs0 : s ≠ 0 := by rw [hs]; split_ifs <;> norm_num
    have hsd : (0:Int) < s * d := by
      rw [hs]; rcases lt_trichotomy d 0 with h | h | h
      · simp only [if_pos h]; omega
      · exact absurd h hd
      · simp only [if_neg (not_lt.mpr (le_of_lt h))]; omega
    have hdnat : (((s * d).toNat : Int)) = s * d := Int.toNat_of_nonneg (le_of_lt hsd)
    set n' := s * n with hn'
    set d' := (s * d).toNat with hd'
    set g := n'.natAbs.gcd d' with hgdef
    have hd'0 : d' ≠ 0 := by intro h; rw [h] at hdnat; simp at hdnat; omega
    have hg : g ≠ 0 := fun h => hd'0 (Nat.eq_zero_of_gcd_eq_zero_right h)
    have hgn : (g : Int) ∣ n' := Int.natCast_dvd.mpr (Nat.gcd_dvd_left _ _)
    have hgd : (g : Int) ∣ (d' : Int) := Int.natCast_dvd_natCast.mpr (Nat.gcd_dvd_right _ _)
    have hcast : ((d' / g : Nat) : ℚ) = (((d' : Int) / (g : Int) : Int) : ℚ) := by
      norm_cast
    rw [hcast]
    obtain ⟨a, ha⟩ := hgn
    obtain ⟨b, hb⟩ := hgd
    have hgZ : (g : Int) ≠ 0 := by exact_mod_cast hg
    have han : n' / (g : Int) = a := by rw [ha, Int.mul_ediv_cancel_left _ hgZ]
    have hbn : (d' : Int) / (g : Int) = b := by rw [hb, Int.mul_ediv_cancel_left _ hgZ]
    rw [han, hbn]
    have hsQ : ((s : Int) : ℚ) ≠ 0 := by exact_mod_cast hs0
    have key : ((n' : Int) : ℚ) / ((d' : Int) : ℚ) = (a : ℚ) / (b : ℚ) := by
      rw [ha, hb]
      push_cast
      rw [mul_div_mul_left _ _ (show ((g:ℕ):ℚ) ≠ 0 by exact_mod_cast hg)]
    have key2 : ((n' : Int) : ℚ) / ((d' : Int) : ℚ) = (n : ℚ) / (d : ℚ) := by
      rw [hn', hd', hdnat]
      push_cast
      rw [mul_div_mul_left _ _ hsQ]
    rw [← key, key2]

def qadd (a b : ℚ) : ℚ := qmk (a.num * b.den + b.num * a.den) ((a.den : Int) * b.den)

def qsub (a b : ℚ) : ℚ := qmk (a.num * b.den - b.num * a.den) ((a.den : Int) * b.den)

def qmul (a b : ℚ) : ℚ := qmk (a.num * b.num) ((a.den : Int) * b.den)

def qdiv (a b : ℚ) : ℚ := qmk (a.num * b.den) ((a.den : Int) * b.num)

def qneg (a : ℚ) : ℚ := qmk (-a.num) a.den

def qabs (a : ℚ) : ℚ := if a.num < 0 then qmk (-a.num) a.den else a

/-- Strict order, by cross multiplication (denominators are positive). -/
def qlt (a b : ℚ) : Bool := a.num * b.den < b.num * a.den

def qle (a b : ℚ) : Bool := a.num * b.den ≤ b.num * a.den

/-- `std::max` (returns the second argument when the first is smaller). -/
def qmax (a b : ℚ) : ℚ := if qlt a b then b else a

/-- `std::min` (returns the second argument when it is smaller). -/
def qmin (a b : ℚ) : ℚ := if qlt b a then b else a

def qofNat (n : Nat) : ℚ := qmk n 1

def qofInt (n : Int) : ℚ := qmk n 1

theorem qmk_eq_divInt (n d : Int) : qmk n d = Rat.divInt n d := by
  rw [qmk_eq, Rat.divInt_eq_div]

theorem qden_int_ne_zero (a : ℚ) : ((a.den : Int)) ≠ 0 := by
  exact_mod_cast a.den_nz

theorem qadd_eq (a b : ℚ) : qadd a b = a + b := by
  rw [qadd, qmk_eq_divInt,
    ← Rat.divInt_add_divInt _ _ (qden_int_ne_zero a) (qden_int_ne_zero b),
    Rat.num_divInt_den, Rat.num_divInt_den]

theorem qsub_eq (a b : ℚ) : qsub a b = a - b := by
  rw [qsub, qmk_eq_divInt,
    ← Rat.divInt_sub_divInt _ _ (qden_int_ne_zero a) (qden_int_ne_zero b),
    Rat.num_divInt_den, Rat.num_divInt_den]

theorem qmul_eq (a b : ℚ) : qmul a b = a * b := by
  rw [qmul, qmk_eq_divInt, ← Rat.divInt_mul_divInt' a.num a.den b.num b.den,
    Rat.num_divInt_den, Rat.num_divInt_den]

theorem qdiv_eq (a b : ℚ) : qdiv a b = a / b := by
  rw [qdiv, qmk_eq_divInt, ← Rat.divInt_div_divInt a.num a.den b.num b.den,
    Rat.num_divInt_den, Rat.num_divInt_den]

theorem qneg_eq (a : ℚ) : qneg a = -a := by
  rw [qneg, qmk_eq_divInt, ← Rat.neg_def]

theorem qabs_eq (a : ℚ) : qabs a = |a| := by
  rw [qabs]
  split_ifs with h
  · rw [qmk_eq_divInt, ← Rat.neg_def, abs_of_neg (Rat.num_neg.mp h)]
  · rw [abs_of_nonneg (Rat.num_nonneg.mp (not_lt.mp h))]

theorem qlt_iff (a b : ℚ) : qlt a b = true ↔ a < b := by
  rw [qlt, decide_eq_true_eq]
  exact (Rat.lt_def).symm

theorem qle_iff (a b : ℚ) : qle a b = true ↔ a ≤ b := by
  rw [qle, decide_eq_true_eq]
  exact (Rat.le_def).symm

theorem qmax_eq (a b : ℚ) : qmax a b = max a b := by
  rw [qmax]
  rcases lt_or_le a b with h | h
  · rw [if_pos ((qlt_iff a b).mpr h), max_eq_right (le_of_lt h)]
  · rw [if_neg (fun hc => absurd ((qlt_iff a b).mp hc) (not_lt.mpr h)), max_eq_left h]

theorem qmin_eq (a b : ℚ) : qmin a b = min a b := by
  rw [qmin]
  rcases lt_or_le b a with h | h
  · rw [if_pos ((qlt_iff b a).mpr h), min_eq_right (le_of_lt h)]
  · rw [if_neg (fun hc => absurd ((qlt_iff b a).mp hc) (not_lt.mpr h)), min_eq_left h]

theorem qofNat_eq (n : Nat) : qofNat n = (n : ℚ) := by
  rw [qofNat, qmk_eq]
  norm_num

theorem qofInt_eq (n : Int) : qofInt n = (n : ℚ) := by
  rw [qofInt, qmk_eq]
  norm_num
/-- OHLCV bar, from `Bar.hpp` (`open` is a Lean keyword, hence `open_`). -/
structure Bar where
  timestamp : Int
  open_ : ℚ
  high : ℚ
  low : ℚ
  close : ℚ
  volume : ℚ
  deriving Repr, DecidableEq

/-- Environment of non-rational primitives: `logQ` stands for `std::log`,
`sqrtQ` for `std::sqrt`, and `dayOf` for the (year, month, day) civil-day
classification that `RiskManager::is_new_day` extracts via `localtime`
(two timestamps fall on the same calendar day iff `dayOf` agrees). -/
structure Env where
  logQ : ℚ → ℚ
  sqrtQ : ℚ → ℚ
  dayOf : Int → Int

/-- The fixed-capacity rolling window of `CircularBuffer.hpp`, modelled by
its logical contents: `data.head?` is the most recently pushed value, and
`data.length ≤ capacity`.  `push` overwrites the oldest element when full,
i.e. truncates the logical list to `capacity`. -/
structure CircularBuffer where
  capacity : Nat
  data : List ℚ
  deriving Repr, DecidableEq

namespace CircularBuffer

def mk0 (c : Nat) : CircularBuffer := ⟨c, []⟩

def push (b : CircularBuffer) (v : ℚ) : CircularBuffer :=
  ⟨b.capacity, (v :: b.data).take b.capacity⟩

/-- Logical `get` (0 = latest).  The source throws for `index ≥ count`;
all call sites in the indicator code access only in-range indices, so the
out-of-range default is never reached in the embedded code paths. -/
def get (b : CircularBuffer) (i : Nat) : ℚ := b.data.getD i 0

def size (b : CircularBuffer) : Nat := b.data.length

def isFull (b : CircularBuffer) : Bool := b.data.length == b.capacity

end CircularBuffer

/-- `SimpleMovingAverage` from `Indicators.hpp`. -/
structure SimpleMovingAverage where
  period : Nat
  sum : ℚ
  buffer : CircularBuffer
  current_value : ℚ
  deriving Repr, DecidableEq

namespace SimpleMovingAverage

def mk0 (p : Nat) : SimpleMovingAverage := ⟨p, 0, CircularBuffer.mk0 p, 0⟩

def update (s : SimpleMovingAverage) (v : ℚ) : SimpleMovingAverage :=
  let sum1 := if s.buffer.isFull then qsub s.sum (s.buffer.get (s.period - 1)) else s.sum
  let buf := s.buffer.push v
  let sum2 := qadd sum1 v
  ⟨s.period, sum2, buf, qdiv sum2 (qofNat buf.size)⟩

def value (s : SimpleMovingAverage) : ℚ := s.current_value

def isReady (s : SimpleMovingAverage) : Bool := s.buffer.isFull

end SimpleMovingAverage

/-- `ExponentialMovingAverage` from `Indicators.hpp` (`alpha = 2/(period+1)`). -/
structure ExponentialMovingAverage where
  period : Nat
  alpha : ℚ
  initialized : Bool
  current_value : ℚ
  deriving Repr, DecidableEq

namespace ExponentialMovingAverage

def mk0 (p : Nat) : ExponentialMovingAverage :=
  ⟨p, qmk 2 ((p : Int) + 1), false, 0⟩

def update (s : ExponentialMovingAverage) (v : ℚ) : ExponentialMovingAverage :=
  if s.initialized then
    ⟨s.period, s.alpha, true, qadd (qmul s.alpha v) (qmul (qsub 1 s.alpha) s.current_value)⟩
  else
    ⟨s.period, s.alpha, true, v⟩

def value (s : ExponentialMovingAverage) : ℚ := s.current_value

def isReady (s : ExponentialMovingAverage) : Bool := s.initialized

end ExponentialMovingAverage

/-- `RSI` from `Indicators.hpp`.  The `prev_price_ = NaN` sentinel is
modelled by `Option`. -/
structure RSI where
  period : Nat
  avg_gain : ℚ
  avg_loss : ℚ
  prev_price : Option ℚ
  initialized_count : Nat
  current_value : ℚ
  deriving Repr, DecidableEq

namespace RSI

def mk0 (p : Nat) : RSI := ⟨p, 0, 0, none, 0, 0⟩

/-- One `update` step; returns the new state together with the value the
C++ `update` returns (0.0 while priming). -/
def updateRet (s : RSI) (v : ℚ) : RSI × ℚ :=
  match s.prev_price with
  | none => (⟨s.period, s.avg_gain, s.avg_loss, some v, s.initialized_count, s.current_value⟩, 0)
  | some p =>
    let change := qsub v p
    let gain := if qlt 0 change then change else 0
    let loss := if qlt change 0 then qneg change else 0
    let ag :=
      if s.initialized_count < s.period then
        let a := qadd s.avg_gain gain
        if s.initialized_count + 1 = s.period then qdiv a (qofNat s.period) else a
      else
        qdiv (qadd (qmul s.avg_gain (qofInt ((s.period : Int) - 1))) gain) (qofNat s.period)
    let al :=
      if s.initialized_count < s.period then
        let a := qadd s.avg_loss loss
        if s.initialized_count + 1 = s.period then qdiv a (qofNat s.period) else a
      else
        qdiv (qadd (qmul s.avg_loss (qofInt ((s.period : Int) - 1))) loss) (qofNat s.period)
    let cnt :=
      if s.initialized_count < s.period then s.initialized_count + 1
      else s.initialized_count
    if cnt < s.period then
      (⟨s.period, ag, al, some v, cnt, s.current_value⟩, 0)
    else
      let cv := if al = 0 then 100 else qsub 100 (qdiv 100 (qadd 1 (qdiv ag al)))
      (⟨s.period, ag, al, some v, cnt, cv⟩, cv)

def update (s : RSI) (v : ℚ) : RSI := (s.updateRet v).1

def value (s : RSI) : ℚ := s.current_value

def isReady (s : RSI) : Bool := s.period ≤ s.initialized_count

end RSI

/-- `BBResult` from `Indicators.hpp`. -/
structure BBResult where
  upper : ℚ
  middle : ℚ
  lower : ℚ
  pct_b : ℚ
  deriving Repr, DecidableEq

/-- `BollingerBands` from `Indicators.hpp`.  Needs `sqrtQ` for the
standard deviation. -/
structure BollingerBands where
  period : Nat
  mult : ℚ
  sma : SimpleMovingAverage
  buffer : CircularBuffer
  current : BBResult
  deriving Repr, DecidableEq

namespace BollingerBands

def mk0 (p : Nat) (m : ℚ) : BollingerBands :=
  ⟨p, m, SimpleMovingAverage.mk0 p, CircularBuffer.mk0 p, ⟨0, 0, 0, 0⟩⟩

def updateRet (env : Env) (s : BollingerBands) (v : ℚ) : BollingerBands × BBResult :=
  let sma := s.sma.update v
  let basis := sma.value
  let buf := s.buffer.push v
  let variance :=
    if buf.isFull then
      qdiv (buf.data.foldl
        (fun acc x => qadd acc (qmul (qsub x basis) (qsub x basis))) 0)
        (qofNat s.period)
    else 0
  let std := env.sqrtQ variance
  let upper := qadd basis (qmul s.mult std)
  let lower := qsub basis (qmul s.mult std)
  let pct := if upper ≠ lower then qdiv (qsub v lower) (qsub upper lower) else qmk 1 2
  let res : BBResult := ⟨upper, basis, lower, pct⟩
  (⟨s.period, s.mult, sma, buf, res⟩, res)

def isReady (s : BollingerBands) : Bool := s.sma.isReady

end BollingerBands

/-- Streaming `ATR` from `Indicators.hpp` (the three-argument `update`). -/
structure ATR where
  period : Nat
  prev_close : Option ℚ
  initialized_count : Nat
  current_value : ℚ
  deriving Repr, DecidableEq

namespace ATR

def mk0 (p : Nat) : ATR := ⟨p, none, 0, 0⟩

def update (s : ATR) (high low close : ℚ) : ATR :=
  let tr :=
    match s.prev_close with
    | none => qsub high low
    | some pc => qmax (qsub high low) (qmax (qabs (qsub high pc)) (qabs (qsub low pc)))
  if s.initialized_count < s.period then
    let cv := qadd s.current_value tr
    let cnt := s.initialized_count + 1
    let cv := if cnt = s.period then qdiv cv (qofNat s.period) else cv
    ⟨s.period, some close, cnt, cv⟩
  else
    ⟨s.period, some close, s.initialized_count,
      qdiv (qadd (qmul s.current_value (qofInt ((s.period : Int) - 1))) tr) (qofNat s.period)⟩

def value (s : ATR) : ℚ := s.current_value

def isReady (s : ATR) : Bool := s.period ≤ s.initialized_count

end ATR

/-- `RateOfChange` from `Indicators.hpp`. -/
structure RateOfChange where
  period : Nat
  buffer : CircularBuffer
  current_value : ℚ
  deriving Repr, DecidableEq

namespace RateOfChange

def mk0 (p : Nat) : RateOfChange := ⟨p, CircularBuffer.mk0 (p + 1), 0⟩

/-- Returns the new state and the C++ return value (0.0 while the window
is not yet full). -/
def updateRet (s : RateOfChange) (v : ℚ) : RateOfChange × ℚ :=
  let buf := s.buffer.push v
  if buf.size ≤ s.period then
    (⟨s.period, buf, s.current_value⟩, 0)
  else
    let old := buf.get s.period
    let cv := if old ≠ 0 then qdiv (qsub v old) old else 0
    (⟨s.period, buf, cv⟩, cv)

def value (s : RateOfChange) : ℚ := s.current_value

def isReady (s : RateOfChange) : Bool := s.period < s.buffer.size

end RateOfChange

/-- `RollingStats` from `Indicators.hpp`; `sqrtQ` models `std::sqrt`, and
the negative-variance clamp of the source is kept. -/
structure RollingStats where
  period : Nat
  buffer : CircularBuffer
  sum : ℚ
  sum_sq : ℚ
  mean : ℚ
  std_dev : ℚ
  zscore : ℚ
  deriving Repr, DecidableEq

namespace RollingStats

def mk0 (p : Nat) : RollingStats := ⟨p, CircularBuffer.mk0 p, 0, 0, 0, 0, 0⟩

def update (env : Env) (s : RollingStats) (v : ℚ) : RollingStats :=
  let old := s.buffer.get (s.period - 1)
  let sum1 := if s.buffer.isFull then qsub s.sum old else s.sum
  let sq1 := if s.buffer.isFull then qsub s.sum_sq (qmul old old) else s.sum_sq
  let buf := s.buffer.push v
  let sum2 := qadd sum1 v
  let sq2 := qadd sq1 (qmul v v)
  let n : ℚ := qofNat buf.size
  let mean := qdiv sum2 n
  let variance := qsub (qdiv sq2 n) (qmul mean mean)
  let variance := if qlt variance 0 then 0 else variance
  let std := env.sqrtQ variance
  let z := if qlt (qmk 1 1000000000) std then qdiv (qsub v mean) std else 0
  ⟨s.period, buf, sum2, sq2, mean, std, z⟩

def isReady (s : RollingStats) : Bool := s.buffer.isFull

end RollingStats

/-! ## Strategy layer (`Strategies.hpp`) -/

/-- Strategy constants replicated from `Strategies.hpp` (decimal constants
written as explicit canonical fractions). -/
def MOMENTUM_PERIOD : Nat := 100
def RANKING_PERIOD : Nat := 100
/-- `MOMENTUM_ENTRY_THRESHOLD = 1.5`. -/
def MOMENTUM_ENTRY_THRESHOLD : ℚ := qmk 3 2
def BB_PERIOD : Nat := 100
/-- `BB_STD_DEV = 2.0`. -/
def BB_STD_DEV : ℚ := 2
def MR_RSI_PERIOD : Nat := 20
def VOL_SHORT : Nat := 50
def VOL_LONG : Nat := 200
def TREND_SMA : Nat := 300
/-- `TREND_THRESHOLD = 0.005`. -/
def TREND_THRESHOLD : ℚ := qmk 5 1000

/-- `RegimeStrategy` state. -/
structure RegimeStrategy where
  vol_short : RollingStats
  vol_long : RollingStats
  sma_trend : SimpleMovingAverage
  last_close : ℚ
  current_regime : String
  deriving Repr, DecidableEq

namespace RegimeStrategy

def mk0 : RegimeStrategy :=
  ⟨RollingStats.mk0 VOL_SHORT, RollingStats.mk0 VOL_LONG,
   SimpleMovingAverage.mk0 TREND_SMA, 0, "UNDEFINED"⟩

def onBar (env : Env) (s : RegimeStrategy) (bar : Bar) : RegimeStrategy :=
  let log_ret := env.logQ (qdiv bar.close s.last_close)
  let vs := if qlt 0 s.last_close then s.vol_short.update env log_ret else s.vol_short
  let vl := if qlt 0 s.last_close then s.vol_long.update env log_ret else s.vol_long
  let st := s.sma_trend.update bar.close
  if ¬(vl.isReady ∧ st.isReady) then
    ⟨vs, vl, st, bar.close, s.current_regime⟩
  else
    let low_vol := qlt vs.std_dev vl.std_dev
    let sma_val := st.value
    let trend_strength := qdiv (qabs (qsub bar.close sma_val)) sma_val
    let trending := qlt TREND_THRESHOLD trend_strength
    let regime :=
      if low_vol && trending then "LV_TREND"
      else if !low_vol && trending then "HV_TREND"
      else if low_vol && !trending then "LV_RANGE"
      else "HV_RANGE"
    ⟨vs, vl, st, bar.close, regime⟩

end RegimeStrategy

/-- `MomentumStrategy` state. -/
structure MomentumStrategy where
  roc : RateOfChange
  roc_zscore : RollingStats
  ema_12 : ExponentialMovingAverage
  ema_26 : ExponentialMovingAverage
  vol_avg : SimpleMovingAverage
  rsi : RSI
  current_signal : Int
  last_zscore : ℚ
  deriving Repr, DecidableEq

namespace MomentumStrategy

def mk0 : MomentumStrategy :=
  ⟨RateOfChange.mk0 MOMENTUM_PERIOD, RollingStats.mk0 RANKING_PERIOD,
   ExponentialMovingAverage.mk0 12, ExponentialMovingAverage.mk0 26,
   SimpleMovingAverage.mk0 20, RSI.mk0 14, 0, 0⟩

def onBar (env : Env) (s : MomentumStrategy) (bar : Bar) : MomentumStrategy :=
  let rocPair := s.roc.updateRet bar.close
  let roc := rocPair.1
  let mom := rocPair.2
  let rz := s.roc_zscore.update env mom
  let e12 := s.ema_12.update bar.close
  let e26 := s.ema_26.update bar.close
  let va := s.vol_avg.update bar.volume
  let rsi := s.rsi.update bar.close
  if ¬(rz.isReady ∧ e26.isReady ∧ va.isReady ∧ rsi.isReady) then
    ⟨roc, rz, e12, e26, va, rsi, s.current_signal, s.last_zscore⟩
  else
    let z := rz.zscore
    let rsi_val := rsi.value
    let trend_up := qlt e26.value e12.value
    let trend_down := qlt e12.value e26.value
    let high_volume := qlt va.value bar.volume
    let rsi_not_extreme_high := qlt rsi_val 75
    let rsi_not_extreme_low := qlt 25 rsi_val
    let momentum_accel := qlt s.last_zscore z
    let momentum_decel := qlt z s.last_zscore
    let long_entry := qlt MOMENTUM_ENTRY_THRESHOLD z && trend_up && high_volume &&
      rsi_not_extreme_high && momentum_accel
    let short_entry := qlt z (qneg MOMENTUM_ENTRY_THRESHOLD) && trend_down && high_volume &&
      rsi_not_extreme_low && momentum_decel
    -- exit_zscore = 0.3
    let momentum_weak := qlt (qabs z) (qmk 3 10)
    let sig : Int :=
      if long_entry then 1
      else if short_entry then -1
      else if momentum_weak then 0
      else s.current_signal
    ⟨roc, rz, e12, e26, va, rsi, sig, z⟩

end MomentumStrategy

/-- `MeanReversionStrategy` state. -/
structure MeanReversionStrategy where
  bb : BollingerBands
  rsi : RSI
  vol_20 : RollingStats
  vol_60 : RollingStats
  last_close : ℚ
  current_signal : Int
  deriving Repr, DecidableEq

namespace MeanReversionStrategy

def mk0 : MeanReversionStrategy :=
  ⟨BollingerBands.mk0 BB_PERIOD BB_STD_DEV, RSI.mk0 MR_RSI_PERIOD,
   RollingStats.mk0 20, RollingStats.mk0 60, 0, 0⟩

def onBar (env : Env) (s : MeanReversionStrategy) (bar : Bar) : MeanReversionStrategy :=
  let bbPair := s.bb.updateRet env bar.close
  let bb := bbPair.1
  let bb_res := bbPair.2
  let rsiPair := s.rsi.updateRet bar.close
  let rsi := rsiPair.1
  let rsi_val := rsiPair.2
  let log_ret := env.logQ (qdiv bar.close s.last_close)
  let v20 := if qlt 0 s.last_close then s.vol_20.update env log_ret else s.vol_20
  let v60 := if qlt 0 s.last_close then s.vol_60.update env log_ret else s.vol_60
  if ¬(bb.isReady ∧ rsi.isReady ∧ v60.isReady) then
    ⟨bb, rsi, v20, v60, bar.close, s.current_signal⟩
  else
    let std_dev := qdiv (qsub bb_res.upper bb_res.middle) BB_STD_DEV
    let bb_pos :=
      if qlt 0 std_dev then qdiv (qsub bar.close bb_res.middle) (qmul BB_STD_DEV std_dev) else 0
    let low_vol_regime := qlt v20.std_dev v60.std_dev
    -- FILTER_BB_THRESH = 0.8, FILTER_RSI_LOW = 30, FILTER_RSI_HIGH = 70
    let long_entry := qlt bb_pos (qmk (-4) 5) && qlt rsi_val 30 && low_vol_regime
    let short_entry := qlt (qmk 4 5) bb_pos && qlt 70 rsi_val && low_vol_regime
    -- EXIT_THRESH = 0.1
    let exit_long := qlt (qmk 1 10) bb_pos
    let exit_short := qlt bb_pos (qmk (-1) 10)
    let sig : Int :=
      if long_entry then 1
      else if short_entry then -1
      else if s.current_signal = 1 ∧ exit_long then 0
      else if s.current_signal = -1 ∧ exit_short then 0
      else s.current_signal
    ⟨bb, rsi, v20, v60, bar.close, sig⟩

end MeanReversionStrategy

/-! ## Risk manager (`RiskManager.hpp`) -/

structure RiskConfig where
  atr_stop_multiplier : ℚ
  max_drawdown_limit : ℚ
  max_trades_per_day : Int
  cooldown_bars : Int
  deriving Repr, DecidableEq

structure RiskManager where
  config : RiskConfig
  side : Int
  entry_price : ℚ
  stop_loss : ℚ
  highest_price : ℚ
  lowest_price : ℚ
  atr_at_entry : ℚ
  trades_today : Int
  last_trade_day : Int
  cooldown_counter : Int
  deriving Repr, DecidableEq

namespace RiskManager

def mk0 (cfg : RiskConfig) : RiskManager := ⟨cfg, 0, 0, 0, 0, 0, 0, 0, 0, 0⟩

/-- `is_new_day`: the (year, month, mday) triples of the two local times
differ, i.e. the civil-day classifications `dayOf` differ. -/
def isNewDay (env : Env) (s : RiskManager) (current_time : Int) : Bool :=
  env.dayOf current_time ≠ env.dayOf s.last_trade_day

/-- `can_enter` both answers and mutates (daily reset); returns the answer
together with the updated state. -/
def canEnter (env : Env) (s : RiskManager) (current_time : Int) : Bool × RiskManager :=
  let s :=
    if s.isNewDay env current_time then
      { s with trades_today := 0, last_trade_day := current_time }
    else s
  if s.trades_today ≥ s.config.max_trades_per_day then (false, s)
  else if s.cooldown_counter > 0 then (false, s)
  else (true, s)

def onEntry (s : RiskManager) (price atr_value : ℚ) (side : Int) : RiskManager :=
  let stop :=
    if side = 1 then qsub price (qmul atr_value s.config.atr_stop_multiplier)
    else qadd price (qmul atr_value s.config.atr_stop_multiplier)
  { s with entry_price := price, highest_price := price, lowest_price := price,
           atr_at_entry := atr_value, side := side, stop_loss := stop,
           trades_today := s.trades_today + 1 }

/-- `check_exit`: returns whether the stop was hit together with the
updated (possibly trailed) state. -/
def checkExit (s : RiskManager) (bar : Bar) : Bool × RiskManager :=
  if s.side = 0 then (false, s)
  else if s.side = 1 ∧ qlt bar.low s.stop_loss then (true, s)
  else if s.side = -1 ∧ qlt s.stop_loss bar.high then (true, s)
  else if s.side = 1 then
    if qlt s.highest_price bar.high then
      let hp := bar.high
      let new_stop := qsub hp (qmul s.atr_at_entry s.config.atr_stop_multiplier)
      (false, { s with highest_price := hp, stop_loss := qmax s.stop_loss new_stop })
    else (false, s)
  else
    if qlt bar.low s.lowest_price then
      let lp := bar.low
      let new_stop := qadd lp (qmul s.atr_at_entry s.config.atr_stop_multiplier)
      (false, { s with lowest_price := lp, stop_loss := qmin s.stop_loss new_stop })
    else (false, s)

def onExit (s : RiskManager) (is_win : Bool) : RiskManager :=
  let s := { s with side := 0 }
  if ¬is_win then { s with cooldown_counter := s.config.cooldown_bars } else s

def updateCooldown (s : RiskManager) : RiskManager :=
  if s.cooldown_counter > 0 then { s with cooldown_counter := s.cooldown_counter - 1 } else s

end RiskManager

/-! ## Execution engine (`ExecutionEngine.hpp`) -/

structure Trade where
  entry_time : Int
  exit_time : Int
  entry_price : ℚ
  exit_price : ℚ
  side : Int
  pnl : ℚ
  deriving Repr, DecidableEq

structure ExecutionEngine where
  capital : ℚ
  cash : ℚ
  position : ℚ
  position_side : Int
  last_entry_time : Int
  last_entry_price : ℚ
  pending_order_side : Int
  pending_order_qty : ℚ
  trades : List Trade
  deriving Repr, DecidableEq

namespace ExecutionEngine

def mk0 (initial_capital : ℚ) : ExecutionEngine :=
  ⟨initial_capital, initial_capital, 0, 0, 0, 0, 0, 0, []⟩

def submitOrder (e : ExecutionEngine) (side : Int) (quantity : ℚ) : ExecutionEngine :=
  { e with pending_order_side := side, pending_order_qty := quantity }

def isInvested (e : ExecutionEngine) : Bool := e.position ≠ 0

def closePosition (e : ExecutionEngine) : ExecutionEngine :=
  if e.position ≠ 0 then e.submitOrder (-e.position_side) (qabs e.position) else e

def getEquity (e : ExecutionEngine) (current_price : ℚ) : ℚ :=
  qadd e.cash (qmul e.position current_price)

/-- `execute_trade` (fees are hard-coded to 0 in the source; the
`1e-9` float-residue epsilon appears as `qmk 1 1000000000`). -/
def executeTrade (e : ExecutionEngine) (time : Int) (side : Int) (qty price : ℚ) :
    ExecutionEngine :=
  let cost := qmul qty price
  let fee : ℚ := 0
  let let_ := if e.position = 0 ∧ side ≠ 0 then time else e.last_entry_time
  let lep := if e.position = 0 ∧ side ≠ 0 then price else e.last_entry_price
  let cash' := if side = 1 then qsub e.cash (qadd cost fee) else qadd e.cash (qsub cost fee)
  let pos' := if side = 1 then qadd e.position qty else qsub e.position qty
  let trades' :=
    if qlt (qabs pos') (qmk 1 1000000000) ∧ e.position_side ≠ 0 then
      let pnl :=
        if e.position_side = 1 then qmul (qsub price lep) qty else qmul (qsub lep price) qty
      e.trades ++ [⟨let_, time, lep, price, e.position_side, qsub pnl 0⟩]
    else e.trades
  let side' :=
    if qlt (qmk 1 1000000000) (qabs pos') then (if qlt 0 pos' then 1 else -1) else 0
  ⟨e.capital, cash', pos', side', let_, lep, e.pending_order_side, e.pending_order_qty, trades'⟩

def onBarOpen (e : ExecutionEngine) (bar : Bar) : ExecutionEngine :=
  if e.pending_order_side ≠ 0 then
    let e' := e.executeTrade bar.timestamp e.pending_order_side e.pending_order_qty bar.open_
    { e' with pending_order_side := 0, pending_order_qty := 0 }
  else e

end ExecutionEngine

/-! ## Engine loop (`Engine.hpp`, `Engine::run`) -/

structure EngineState where
  exec : ExecutionEngine
  risk : RiskManager
  regime : RegimeStrategy
  momentum : MomentumStrategy
  meanrev : MeanReversionStrategy
  deriving Repr, DecidableEq

/-- Per-bar trace record used to state temporal properties: whether the
bar's processing fired the stop-exit branch, entered a new position (the
`risk.on_entry` call), and which signal was dispatched. -/
structure Report where
  ts : Int
  stopExit : Bool
  entered : Bool
  signal : Int
  regime : String
  deriving Repr, DecidableEq

/-- Engine construction: `RiskConfig {2.0, 0.10, 20, 5}` and 100k
capital. -/
def engineInit : EngineState :=
  ⟨ExecutionEngine.mk0 100000, RiskManager.mk0 ⟨2, qmk 1 10, 20, 5⟩,
   RegimeStrategy.mk0, MomentumStrategy.mk0, MeanReversionStrategy.mk0⟩

/-- One iteration of the `Engine::run` main event loop. -/
def stepBar (env : Env) (s : EngineState) (bar : Bar) : EngineState × Report :=
  -- 1. Process fills (orders from previous bar execute at open)
  let e1 := s.exec.onBarOpen bar
  -- 2. Intra-bar risk check
  let ck := s.risk.checkExit bar
  let e2 := if e1.isInvested then (if ck.1 then e1.closePosition else e1) else e1
  let r2 := if e1.isInvested then (if ck.1 then ck.2.onExit false else ck.2) else s.risk
  let stopExit := if e1.isInvested then ck.1 else false
  -- 3. Update strategies
  let reg := s.regime.onBar env bar
  let mom := s.momentum.onBar env bar
  let mr := s.meanrev.onBar env bar
  -- 4. Dispatch signal by regime
  let signal : Int :=
    if reg.current_regime = "LV_TREND" ∨ reg.current_regime = "HV_TREND" then
      mom.current_signal
    else if reg.current_regime = "LV_RANGE" then mr.current_signal
    else 0
  -- 5./6. Execution logic (alloc_amt = 100000 * 0.20, dummy ATR = close * 0.01)
  let ce := r2.canEnter env bar.timestamp
  let qty := qdiv (qmul 100000 (qmk 1 5)) bar.close
  let e3 :=
    if signal ≠ 0 ∧ ¬e2.isInvested then
      (if ce.1 then e2.submitOrder signal qty else e2)
    else if signal = 0 ∧ e2.isInvested then e2.closePosition
    else e2
  let r3 :=
    if signal ≠ 0 ∧ ¬e2.isInvested then
      (if ce.1 then ce.2.onEntry bar.close (qmul bar.close (qmk 1 100)) signal else ce.2)
    else if signal = 0 ∧ e2.isInvested then r2.onExit true
    else r2
  let entered := if signal ≠ 0 ∧ ¬e2.isInvested then ce.1 else false
  -- 7. Update churn cooldown
  let r4 := r3.updateCooldown
  (⟨e3, r4, reg, mom, mr⟩, ⟨bar.timestamp, stopExit, entered, signal, reg.current_regime⟩)

/-- Run the engine over a bar list, collecting the per-bar reports. -/
def runAux (env : Env) (s : EngineState) : List Bar → EngineState × List Report
  | [] => (s, [])
  | b :: bs =>
    let p := stepBar env s b
    let rest := runAux env p.1 bs
    (rest.1, p.2 :: rest.2)

def engineRun (env : Env) (bars : List Bar) : EngineState × List Report :=
  runAux env engineInit bars

/-! ## Component-level reachability for the execution engine -/

/-- The public operations of `ExecutionEngine`. -/
inductive ExecOp where
  | submit (side : Int) (qty : ℚ)
  | close
  | barOpen (bar : Bar)

def ExecutionEngine.applyOp (e : ExecutionEngine) : ExecOp → ExecutionEngine
  | .submit side qty => e.submitOrder side qty
  | .close => e.closePosition
  | .barOpen bar => e.onBarOpen bar

def ExecutionEngine.applyOps (e : ExecutionEngine) (ops : List ExecOp) : ExecutionEngine :=
  ops.foldl ExecutionEngine.applyOp e

/-- A state of the execution engine is reachable if some sequence of public
operations produces it from a freshly constructed engine. -/
def ExecutionEngine.Reachable (e : ExecutionEngine) : Prop :=
  ∃ (c : ℚ) (ops : List ExecOp), (ExecutionEngine.mk0 c).applyOps ops = e

/-- A fixed environment whose `logQ`/`sqrtQ` agree with the real functions
at the arguments the constant-price and degenerate-input scenarios reach
(`log 1 = 0`, `sqrt 0 = 0`). -/
def envZero : Env := ⟨fun _ => 0, fun _ => 0, fun t => t.fdiv 86400⟩

/-! ## C1: no look-ahead -/

namespace ExecutionEngine

@[simp] theorem submitOrder_cash (e : ExecutionEngine) (sd : Int) (q : ℚ) :
    (e.submitOrder sd q).cash = e.cash := rfl

@[simp] theorem submitOrder_position (e : ExecutionEngine) (sd : Int) (q : ℚ) :
    (e.submitOrder sd q).position = e.position := rfl

@[simp] theorem submitOrder_position_side (e : ExecutionEngine) (sd : Int) (q : ℚ) :
    (e.submitOrder sd q).position_side = e.position_side := rfl

@[simp] theorem submitOrder_trades (e : ExecutionEngine) (sd : Int) (q : ℚ) :
    (e.submitOrder sd q).trades = e.trades := rfl

@[simp] theorem submitOrder_last_entry_time (e : ExecutionEngine) (sd : Int) (q : ℚ) :
    (e.submitOrder sd q).last_entry_time = e.last_entry_time := rfl

@[simp] theorem submitOrder_last_entry_price (e : ExecutionEngine) (sd : Int) (q : ℚ) :
    (e.submitOrder sd q).last_entry_price = e.last_entry_price := rfl

@[simp] theorem closePosition_cash (e : ExecutionEngine) :
    (e.closePosition).cash = e.cash := by
  unfold closePosition; split_ifs <;> rfl

@[simp] theorem closePosition_position (e : ExecutionEngine) :
    (e.closePosition).position = e.position := by
  unfold closePosition; split_ifs <;> rfl

@[simp] theorem closePosition_position_side (e : ExecutionEngine) :
    (e.closePosition).position_side = e.position_side := by
  unfold closePosition; split_ifs <;> rfl

@[simp] theorem closePosition_trades (e : ExecutionEngine) :
    (e.closePosition).trades = e.trades := by
  unfold closePosition; split_ifs <;> rfl

@[simp] theorem closePosition_last_entry_time (e : ExecutionEngine) :
    (e.closePosition).last_entry_time = e.last_entry_time := by
  unfold closePosition; split_ifs <;> rfl

@[simp] theorem closePosition_last_entry_price (e : ExecutionEngine) :
    (e.closePosition).last_entry_price = e.last_entry_price := by
  unfold closePosition; split_ifs <;> rfl

end ExecutionEngine

/-- During one engine bar, the execution engine's cash, position and trade
ledger change only in step 1 (`on_bar_open`), before anything is observed:
the submits of steps 2/5/6 leave them untouched. -/
theorem stepBar_exec_observables (env : Env) (s : EngineState) (b : Bar) :
    (stepBar env s b).1.exec.cash = (s.exec.onBarOpen b).cash ∧
    (stepBar env s b).1.exec.position = (s.exec.onBarOpen b).position ∧
    (stepBar env s b).1.exec.trades = (s.exec.onBarOpen b).trades ∧
    (stepBar env s b).1.exec.position_side = (s.exec.onBarOpen b).position_side ∧
    (stepBar env s b).1.exec.last_entry_price = (s.exec.onBarOpen b).last_entry_price := by
  unfold stepBar
  dsimp only
  split_ifs <;> simp

/-- C1 (no look-ahead): an order submitted while processing bar *t* does
not change any state observed during bar *t* — `submit_order` touches only
the pending-order fields, and a bar's processing only modifies
cash/position/trades in step 1, before any observation — and a pending
order is filled exactly once, at the open price of the next processed bar:
`on_bar_open` applies `execute_trade` at `b.open` and clears the pending
order. -/
theorem no_look_ahead (env : Env) (s : EngineState) (b : Bar) (side : Int) (qty : ℚ)
    (hp : s.exec.pending_order_side = side) (hq : s.exec.pending_order_qty = qty)
    (hside : side ≠ 0) :
    (∀ (e : ExecutionEngine) (sd : Int) (q : ℚ),
      (e.submitOrder sd q).cash = e.cash ∧ (e.submitOrder sd q).position = e.position ∧
      (e.submitOrder sd q).position_side = e.position_side ∧
      (e.submitOrder sd q).trades = e.trades ∧
      (e.submitOrder sd q).last_entry_time = e.last_entry_time ∧
      (e.submitOrder sd q).last_entry_price = e.last_entry_price) ∧
    (s.exec.onBarOpen b =
      { s.exec.executeTrade b.timestamp side qty b.open_ with
          pending_order_side := 0, pending_order_qty := 0 }) ∧
    ((stepBar env s b).1.exec.cash = (s.exec.onBarOpen b).cash ∧
     (stepBar env s b).1.exec.position = (s.exec.onBarOpen b).position ∧
     (stepBar env s b).1.exec.trades = (s.exec.onBarOpen b).trades) := by
  refine ⟨fun e sd q => ⟨rfl, rfl, rfl, rfl, rfl, rfl⟩, ?_, ?_⟩
  · unfold ExecutionEngine.onBarOpen
    rw [hp, hq, if_pos hside]
  · obtain ⟨h1, h2, h3, _, _⟩ := stepBar_exec_observables env s b
    exact ⟨h1, h2, h3⟩

/-- Witness for C1: a state with a pending long order of 1 unit; the next
bar fills it at that bar's open, exactly once. -/
theorem no_look_ahead_witness :
    let s : EngineState := { engineInit with exec := engineInit.exec.submitOrder 1 1 }
    let b : Bar := Bar.mk 10 101 102 99 100 1000
    s.exec.pending_order_side = 1 ∧ s.exec.pending_order_qty = 1 ∧ (1 : Int) ≠ 0 ∧
    s.exec.onBarOpen b =
      { s.exec.executeTrade b.timestamp 1 1 b.open_ with
          pending_order_side := 0, pending_order_qty := 0 } := by
  refine ⟨rfl, rfl, by decide, ?_⟩
  exact (no_look_ahead envZero _ _ 1 1 rfl rfl (by decide)).2.1

/-! ## C10: warmup mute -/

/-- The regime detector's indicators are ready. -/
def RegimeReady (r : RegimeStrategy) : Prop :=
  r.vol_long.isReady = true ∧ r.sma_trend.isReady = true

theorem CircularBuffer.push_capacity (b : CircularBuffer) (v : ℚ) :
    (b.push v).capacity = b.capacity := rfl

theorem CircularBuffer.push_full_of_full (b : CircularBuffer) (v : ℚ)
    (h : b.isFull = true) : (b.push v).isFull = true := by
  unfold CircularBuffer.isFull at *
  unfold CircularBuffer.push
  simp only [beq_iff_eq] at *
  simp [List.length_take, h]

theorem RollingStats.rollingUpdate_capacity (env : Env) (s : RollingStats) (v : ℚ) :
    (s.update env v).buffer.capacity = s.buffer.capacity := by
  unfold RollingStats.update
  split_ifs <;> rfl

theorem RollingStats.rollingUpdate_ready_of_ready (env : Env) (s : RollingStats) (v : ℚ)
    (h : s.isReady = true) : (s.update env v).isReady = true := by
  unfold RollingStats.isReady at *
  unfold RollingStats.update
  exact CircularBuffer.push_full_of_full _ _ h

theorem SimpleMovingAverage.update_capacity (s : SimpleMovingAverage) (v : ℚ) :
    (s.update v).buffer.capacity = s.buffer.capacity := rfl

theorem SimpleMovingAverage.update_ready_of_ready (s : SimpleMovingAverage) (v : ℚ)
    (h : s.isReady = true) : (s.update v).isReady = true := by
  unfold SimpleMovingAverage.isReady at *
  exact CircularBuffer.push_full_of_full _ _ h

theorem RegimeStrategy.onBar_vol_long (env : Env) (s : RegimeStrategy) (bar : Bar) :
    (s.onBar env bar).vol_long =
      if qlt 0 s.last_close then
        s.vol_long.update env (env.logQ (qdiv bar.close s.last_close))
      else s.vol_long := by
  unfold RegimeStrategy.onBar
  dsimp only
  split_ifs <;> rfl

theorem RegimeStrategy.onBar_sma_trend (env : Env) (s : RegimeStrategy) (bar : Bar) :
    (s.onBar env bar).sma_trend = s.sma_trend.update bar.close := by
  unfold RegimeStrategy.onBar
  dsimp only
  split_ifs <;> rfl

/-- Readiness of the regime detector is monotone along `on_bar` updates. -/
theorem RegimeStrategy.onBar_ready_of_ready (env : Env) (s : RegimeStrategy) (bar : Bar)
    (h : RegimeReady s) : RegimeReady (s.onBar env bar) := by
  obtain ⟨h1, h2⟩ := h
  constructor
  · rw [RegimeStrategy.onBar_vol_long]
    split_ifs with hc
    · exact RollingStats.rollingUpdate_ready_of_ready env _ _ h1
    · exact h1
  · rw [RegimeStrategy.onBar_sma_trend]
    exact SimpleMovingAverage.update_ready_of_ready _ _ h2

theorem RegimeStrategy.onBar_regime_of_not_ready (env : Env) (s : RegimeStrategy) (bar : Bar)
    (h : ¬RegimeReady (s.onBar env bar)) :
    (s.onBar env bar).current_regime = s.current_regime := by
  have hR : ¬((s.onBar env bar).vol_long.isReady = true ∧
      (s.onBar env bar).sma_trend.isReady = true) := h
  rw [RegimeStrategy.onBar_vol_long, RegimeStrategy.onBar_sma_trend] at hR
  unfold RegimeStrategy.onBar
  dsimp only
  by_cases hA : qlt 0 s.last_close
  · simp only [hA, if_true] at hR ⊢
    rw [if_pos hR]
  · simp only [hA, Bool.false_eq_true, if_false] at hR ⊢
    try rw [if_pos hR]

theorem stepBar_regime (env : Env) (s : EngineState) (b : Bar) :
    (stepBar env s b).1.regime = s.regime.onBar env b := rfl

/-- The warmup invariant: nothing has touched the execution engine and the
regime string is still `"UNDEFINED"`. -/
def WarmupInv (s : EngineState) : Prop :=
  s.exec = ExecutionEngine.mk0 100000 ∧ s.regime.current_regime = "UNDEFINED"

theorem stepBar_warmup (env : Env) (s : EngineState) (b : Bar)
    (hI : WarmupInv s) (hnr : ¬RegimeReady ((stepBar env s b).1.regime)) :
    WarmupInv ((stepBar env s b).1) ∧ (stepBar env s b).2.signal = 0 ∧
      (stepBar env s b).2.entered = false ∧
      (stepBar env s b).2.regime = "UNDEFINED" := by
  obtain ⟨hexec, hreg⟩ := hI
  rw [stepBar_regime] at hnr
  have hregfix : (s.regime.onBar env b).current_regime = "UNDEFINED" := by
    rw [RegimeStrategy.onBar_regime_of_not_ready env s.regime b hnr, hreg]
  have hinv : s.exec.isInvested = false := by
    rw [hexec]; decide
  have hopen : s.exec.onBarOpen b = s.exec := by
    unfold ExecutionEngine.onBarOpen
    rw [hexec]
    simp [ExecutionEngine.mk0]
  unfold stepBar
  dsimp only
  rw [hopen, hregfix]
  simp [hinv]
  exact ⟨hexec, hregfix⟩

/-- Readiness is monotone along whole runs. -/
theorem runAux_ready_of_ready (env : Env) (bs : List Bar) (s : EngineState)
    (h : RegimeReady s.regime) : RegimeReady ((runAux env s bs).1.regime) := by
  induction bs generalizing s with
  | nil => exact h
  | cons b rest ih =>
    show RegimeReady ((runAux env (stepBar env s b).1 rest).1.regime)
    exact ih _ (by rw [stepBar_regime]; exact RegimeStrategy.onBar_ready_of_ready _ _ _ h)

theorem warmup_mute_aux (env : Env) (bs : List Bar) (s : EngineState)
    (hI : WarmupInv s) (hnr : ¬RegimeReady ((runAux env s bs).1.regime)) :
    WarmupInv ((runAux env s bs).1) ∧
      ∀ r ∈ (runAux env s bs).2, r.signal = 0 ∧ r.entered = false ∧ r.regime = "UNDEFINED" := by
  induction bs generalizing s with
  | nil => exact ⟨hI, by simp [runAux]⟩
  | cons b rest ih =>
    have hnr1 : ¬RegimeReady ((stepBar env s b).1.regime) := by
      intro hr
      exact hnr (runAux_ready_of_ready env rest _ hr)
    obtain ⟨hI', hsig, hent, hregr⟩ := stepBar_warmup env s b hI hnr1
    have hrest := ih (stepBar env s b).1 hI' (by exact hnr)
    refine ⟨hrest.1, ?_⟩
    intro r hr
    rcases List.mem_cons.mp hr with h | h
    · subst h; exact ⟨hsig, hent, hregr⟩
    · exact hrest.2 r h

/-- Window capacities of the regime detector are constant along runs. -/
theorem runAux_regime_capacity (env : Env) (bs : List Bar) (s0 : EngineState)
    (h1 : s0.regime.vol_long.buffer.capacity = VOL_LONG)
    (h2 : s0.regime.sma_trend.buffer.capacity = TREND_SMA) :
    (runAux env s0 bs).1.regime.vol_long.buffer.capacity = VOL_LONG ∧
    (runAux env s0 bs).1.regime.sma_trend.buffer.capacity = TREND_SMA := by
  induction bs generalizing s0 with
  | nil => exact ⟨h1, h2⟩
  | cons b rest ih =>
    refine ih (stepBar env s0 b).1 ?_ ?_
    · rw [stepBar_regime, RegimeStrategy.onBar_vol_long]
      split_ifs
      · rw [RollingStats.rollingUpdate_capacity]; exact h1
      · exact h1
    · rw [stepBar_regime, RegimeStrategy.onBar_sma_trend,
        SimpleMovingAverage.update_capacity]
      exact h2

/-- C10 (warmup mute): as long as fewer than `VOL_LONG = 200` log-returns
or fewer than `TREND_SMA = 300` closes have been observed (the regime
detector's windows are not yet full), the regime string is `"UNDEFINED"`,
every dispatched signal so far was 0, no entry has fired, and the
execution engine is still exactly in its initial state — no order was ever
submitted. -/
theorem warmup_mute (env : Env) (bars : List Bar)
    (hcount : (engineRun env bars).1.regime.vol_long.buffer.size < VOL_LONG ∨
              (engineRun env bars).1.regime.sma_trend.buffer.size < TREND_SMA) :
    (engineRun env bars).1.regime.current_regime = "UNDEFINED" ∧
    (∀ r ∈ (engineRun env bars).2, r.signal = 0 ∧ r.entered = false) ∧
    (engineRun env bars).1.exec = ExecutionEngine.mk0 100000 := by
  have hcapv := runAux_regime_capacity env bars engineInit rfl rfl
  have hnr : ¬RegimeReady ((engineRun env bars).1.regime) := by
    intro hr
    obtain ⟨h1, h2⟩ := hr
    unfold RollingStats.isReady CircularBuffer.isFull at h1
    unfold SimpleMovingAverage.isReady CircularBuffer.isFull at h2
    simp only [beq_iff_eq] at h1 h2
    unfold CircularBuffer.size at hcount
    rcases hcount with h | h
    · rw [h1] at h
      rw [show (engineRun env bars).1 = (runAux env engineInit bars).1 from rfl] at h
      rw [hcapv.1] at h
      omega
    · rw [h2] at h
      rw [show (engineRun env bars).1 = (runAux env engineInit bars).1 from rfl] at h
      rw [hcapv.2] at h
      omega
  obtain ⟨⟨hexec, hreg⟩, hall⟩ := warmup_mute_aux env bars engineInit ⟨rfl, rfl⟩ hnr
  exact ⟨hreg, fun r hr => ⟨(hall r hr).1, (hall r hr).2.1⟩, hexec⟩

/-- Witness for C10: two constant bars (far fewer than 200/300). -/
theorem warmup_mute_witness :
    let bars := [Bar.mk 1 100 100 100 100 1000, Bar.mk 2 100 100 100 100 1000]
    ((engineRun envZero bars).1.regime.vol_long.buffer.size < VOL_LONG ∨
     (engineRun envZero bars).1.regime.sma_trend.buffer.size < TREND_SMA) ∧
    (engineRun envZero bars).1.regime.current_regime = "UNDEFINED" ∧
    (engineRun envZero bars).1.exec = ExecutionEngine.mk0 100000 := by
  refine ⟨Or.inl (by decide), ?_, ?_⟩
  · exact (warmup_mute envZero _ (Or.inl (by decide))).1
  · exact (warmup_mute envZero _ (Or.inl (by decide))).2.2

/-! ## C2: cash conservation -/

/-- Sum of realized pnl over the closed-trade ledger. -/
def sumPnl (ts : List Trade) : ℚ := (ts.map Trade.pnl).sum

theorem sumPnl_append (ts : List Trade) (t : Trade) :
    sumPnl (ts ++ [t]) = sumPnl ts + t.pnl := by
  unfold sumPnl
  rw [List.map_append, List.sum_append]
  simp

theorem qsub_self (a : ℚ) : qsub a a = 0 := by
  rw [qsub_eq, sub_self]

theorem ExecutionEngine.isInvested_eq_false (e : ExecutionEngine) :
    e.isInvested = false ↔ e.position = 0 := by
  unfold ExecutionEngine.isInvested
  simp

/-- Accounting invariant: cash differs from the initial capital by the
realized pnl minus the open position's cost basis. -/
def ExecInv (e : ExecutionEngine) : Prop :=
  e.cash = 100000 + sumPnl e.trades - e.position * e.last_entry_price

/-- The cached `position_side_` is the sign of the position (or 0). -/
def SideOK (e : ExecutionEngine) : Prop :=
  (e.position_side = 0 ∨ e.position_side = 1 ∨ e.position_side = -1) ∧
  (e.position_side = 1 → 0 < e.position) ∧
  (e.position_side = -1 → e.position < 0) ∧
  (e.position = 0 → e.position_side = 0)

/-- The pending order (if any, and if a position is open) is the full close
submitted by `close_position`. -/
def PendingOK (e : ExecutionEngine) : Prop :=
  e.pending_order_side = 0 ∨ e.position = 0 ∨
  (e.pending_order_side = -e.position_side ∧ e.pending_order_qty = |e.position| ∧
   e.position_side ≠ 0)

def GoodExec (e : ExecutionEngine) : Prop := ExecInv e ∧ SideOK e ∧ PendingOK e

/-- `execute_trade` re-expressed with Mathlib's field operations (proved
equal to the kernel-evaluable definition). -/
theorem executeTrade_spec (e : ExecutionEngine) (time : Int) (side : Int) (qty price : ℚ) :
    e.executeTrade time side qty price =
      ⟨e.capital,
       if side = 1 then e.cash - (qty * price + 0) else e.cash + (qty * price - 0),
       if side = 1 then e.position + qty else e.position - qty,
       if qmk 1 1000000000 < |if side = 1 then e.position + qty else e.position - qty| then
         (if 0 < (if side = 1 then e.position + qty else e.position - qty) then 1 else -1)
       else 0,
       if e.position = 0 ∧ side ≠ 0 then time else e.last_entry_time,
       if e.position = 0 ∧ side ≠ 0 then price else e.last_entry_price,
       e.pending_order_side, e.pending_order_qty,
       if |if side = 1 then e.position + qty else e.position - qty| < qmk 1 1000000000 ∧
           e.position_side ≠ 0 then
         e.trades ++ [⟨if e.position = 0 ∧ side ≠ 0 then time else e.last_entry_time, time,
           if e.position = 0 ∧ side ≠ 0 then price else e.last_entry_price, price,
           e.position_side,
           (if e.position_side = 1 then
              (price - (if e.position = 0 ∧ side ≠ 0 then price else e.last_entry_price)) * qty
            else
              ((if e.position = 0 ∧ side ≠ 0 then price else e.last_entry_price) - price) * qty)
             - 0⟩]
       else e.trades⟩ := by
  unfold ExecutionEngine.executeTrade
  dsimp only
  simp only [qadd_eq, qsub_eq, qmul_eq, qabs_eq, qlt_iff]

/-- The recomputed `position_side_` of `execute_trade` satisfies `SideOK`
with respect to the new position. -/
theorem sideOK_recompute (p : ℚ) :
    ((if qmk 1 1000000000 < |p| then (if 0 < p then (1:Int) else -1) else 0) = 0 ∨
     (if qmk 1 1000000000 < |p| then (if 0 < p then (1:Int) else -1) else 0) = 1 ∨
     (if qmk 1 1000000000 < |p| then (if 0 < p then (1:Int) else -1) else 0) = -1) ∧
    ((if qmk 1 1000000000 < |p| then (if 0 < p then (1:Int) else -1) else 0) = 1 → 0 < p) ∧
    ((if qmk 1 1000000000 < |p| then (if 0 < p then (1:Int) else -1) else 0) = -1 → p < 0) ∧
    (p = 0 → (if qmk 1 1000000000 < |p| then (if 0 < p then (1:Int) else -1) else 0) = 0) := by
  have heps : (0:ℚ) < qmk 1 1000000000 := by rw [qmk_eq]; norm_num
  by_cases h1 : qmk 1 1000000000 < |p|
  · by_cases h2 : 0 < p
    · rw [if_pos h1, if_pos h2]
      exact ⟨Or.inr (Or.inl rfl), fun _ => h2, fun hc => absurd hc (by decide),
        fun hp => absurd h2 (by rw [hp]; exact lt_irrefl 0)⟩
    · rw [if_pos h1, if_neg h2]
      have hne : p ≠ 0 := by
        intro hp
        rw [hp, abs_zero] at h1
        exact absurd (lt_trans heps h1) (lt_irrefl 0)
      refine ⟨Or.inr (Or.inr rfl), fun hc => absurd hc (by decide), fun _ => ?_,
        fun hp => absurd hp hne⟩
      exact lt_of_le_of_ne (not_lt.mp h2) hne
  · rw [if_neg h1]
    exact ⟨Or.inl rfl, fun hc => absurd hc (by decide), fun hc => absurd hc (by decide),
      fun _ => rfl⟩

/-- `on_bar_open` preserves the accounting invariants (this is where fills
happen). -/
theorem onBarOpen_good (e : ExecutionEngine) (b : Bar) (h : GoodExec e) :
    GoodExec (e.onBarOpen b) := by
  obtain ⟨hinv, hsideok, hpend⟩ := h
  unfold ExecutionEngine.onBarOpen
  by_cases hp : e.pending_order_side ≠ 0
  swap
  · rw [if_neg hp]
    exact ⟨hinv, hsideok, hpend⟩
  rw [if_pos hp, executeTrade_spec]
  rcases hpend with hp0 | hflat | ⟨hps, hq, hpsne⟩
  · exact absurd hp0 hp
  · -- entry fill from a flat position
    have hps0 : e.position_side = 0 := hsideok.2.2.2 hflat
    have hcap : e.position = 0 ∧ e.pending_order_side ≠ 0 := ⟨hflat, hp⟩
    have htrneg : ¬(|if e.pending_order_side = 1 then e.position + e.pending_order_qty
        else e.position - e.pending_order_qty| < qmk 1 1000000000 ∧ e.position_side ≠ 0) :=
      fun hh => hh.2 hps0
    simp only [if_pos hcap, if_neg htrneg]
    refine ⟨?_, ?_, Or.inl rfl⟩
    · unfold ExecInv at *
      dsimp only
      by_cases hs1 : e.pending_order_side = 1
      · rw [if_pos hs1, if_pos hs1, hinv, hflat]
        ring
      · rw [if_neg hs1, if_neg hs1, hinv, hflat]
        ring
    · unfold SideOK
      dsimp only
      exact sideOK_recompute _
  · -- close fill: the pending order is the full close of the open position
    have hpos_ne : e.position ≠ 0 := by
      rcases hsideok.1 with h0 | h1 | hm1
      · exact absurd h0 hpsne
      · exact ne_of_gt (hsideok.2.1 h1)
      · exact ne_of_lt (hsideok.2.2.1 hm1)
    have hcapneg : ¬(e.position = 0 ∧ e.pending_order_side ≠ 0) := fun hh => hpos_ne hh.1
    simp only [if_neg hcapneg]
    have heps : (0:ℚ) < qmk 1 1000000000 := by rw [qmk_eq]; norm_num
    rcases hsideok.1 with h0 | hps1 | hpsm1
    · exact absurd h0 hpsne
    · -- long close: position > 0, pending side = -1, qty = position
      have hposgt : 0 < e.position := hsideok.2.1 hps1
      have hqq : e.pending_order_qty = e.position := by rw [hq, abs_of_pos hposgt]
      have hsidearg : e.pending_order_side = -1 := by rw [hps, hps1]
      have hnot1 : ¬(e.pending_order_side = 1) := by rw [hsidearg]; decide
      have hzero : e.position - e.pending_order_qty = 0 := by rw [hqq]; ring
      simp only [if_neg hnot1]
      rw [hzero]
      have htr : |(0:ℚ)| < qmk 1 1000000000 ∧ e.position_side ≠ 0 :=
        ⟨by rwa [abs_zero], by rw [hps1]; decide⟩
      rw [if_pos htr, if_neg (by rw [abs_zero]; exact not_lt.mpr (le_of_lt heps))]
      refine ⟨?_, ?_, Or.inl rfl⟩
      · unfold ExecInv at *
        dsimp only
        rw [sumPnl_append]
        dsimp only
        rw [if_pos hps1, hinv, hqq]
        ring
      · unfold SideOK
        dsimp only
        exact ⟨Or.inl rfl, fun hc => absurd hc (by decide), fun hc => absurd hc (by decide),
          fun _ => rfl⟩
    · -- short close: position < 0, pending side = 1, qty = -position
      have hposlt : e.position < 0 := hsideok.2.2.1 hpsm1
      have hqq : e.pending_order_qty = -e.position := by rw [hq, abs_of_neg hposlt]
      have hsidearg : e.pending_order_side = 1 := by rw [hps, hpsm1]; decide
      have hzero : e.position + e.pending_order_qty = 0 := by rw [hqq]; ring
      simp only [if_pos hsidearg]
      rw [hzero]
      have htr : |(0:ℚ)| < qmk 1 1000000000 ∧ e.position_side ≠ 0 :=
        ⟨by rwa [abs_zero], by rw [hpsm1]; decide⟩
      rw [if_pos htr, if_neg (by rw [abs_zero]; exact not_lt.mpr (le_of_lt heps))]
      have hnot1ps : ¬(e.position_side = 1) := by rw [hpsm1]; decide
      refine ⟨?_, ?_, Or.inl rfl⟩
      · unfold ExecInv at *
        dsimp only
        rw [sumPnl_append]
        dsimp only
        rw [if_neg hnot1ps, hinv, hqq]
        ring
      · unfold SideOK
        dsimp only
        exact ⟨Or.inl rfl, fun hc => absurd hc (by decide), fun hc => absurd hc (by decide),
          fun _ => rfl⟩

theorem submitOrder_good_of_flat (e : ExecutionEngine) (sd : Int) (q : ℚ)
    (hflat : e.position = 0) (h : GoodExec e) : GoodExec (e.submitOrder sd q) := by
  obtain ⟨hinv, hsideok, _⟩ := h
  exact ⟨hinv, hsideok, Or.inr (Or.inl hflat)⟩

theorem closePosition_good (e : ExecutionEngine) (h : GoodExec e) :
    GoodExec e.closePosition := by
  obtain ⟨hinv, hsideok, hpend⟩ := h
  unfold ExecutionEngine.closePosition
  split_ifs with hpos
  · refine ⟨hinv, hsideok, ?_⟩
    by_cases hps : e.position_side = 0
    · exact Or.inl (by simp [ExecutionEngine.submitOrder, hps])
    · exact Or.inr (Or.inr ⟨rfl, by rw [ExecutionEngine.submitOrder]; exact (qabs_eq _), hps⟩)
  · exact ⟨hinv, hsideok, hpend⟩

theorem position_zero_of_not_invested (e : ExecutionEngine) (h : ¬(e.isInvested = true)) :
    e.position = 0 := by
  have hf : e.isInvested = false := by
    cases hb : e.isInvested
    · rfl
    · exact absurd hb h
  exact (ExecutionEngine.isInvested_eq_false e).mp hf

/-- One engine bar preserves the accounting invariants. -/
theorem stepBar_good (env : Env) (s : EngineState) (b : Bar) (h : GoodExec s.exec) :
    GoodExec (stepBar env s b).1.exec := by
  have h1 : GoodExec (s.exec.onBarOpen b) := onBarOpen_good s.exec b h
  unfold stepBar
  dsimp only
  split_ifs <;>
    first
      | exact h1
      | exact closePosition_good _ h1
      | exact closePosition_good _ (closePosition_good _ h1)
      | exact submitOrder_good_of_flat _ _ _ (position_zero_of_not_invested _ (by tauto)) h1
      | exact submitOrder_good_of_flat _ _ _ (position_zero_of_not_invested _ (by tauto))
          (closePosition_good _ h1)

/-- The accounting invariants hold after every prefix of every run. -/
theorem runAux_good (env : Env) (bs : List Bar) (s : EngineState) (h : GoodExec s.exec) :
    GoodExec ((runAux env s bs).1.exec) := by
  induction bs generalizing s with
  | nil => exact h
  | cons b rest ih => exact ih _ (stepBar_good env s b h)

theorem engineInit_good : GoodExec engineInit.exec := by
  refine ⟨?_, ⟨Or.inl rfl, fun hc => absurd hc (by decide), fun hc => absurd hc (by decide),
    fun _ => rfl⟩, Or.inl rfl⟩
  show (100000 : ℚ) = 100000 + sumPnl [] - 0 * 0
  simp [sumPnl]

/-- C2 (cash conservation): with the fee rate 0 (as hard-coded in the
source), at every bar of every run, equity evaluated at that bar's close
equals `initial_capital + Σ closed_trade.pnl + unrealized`, where the
unrealized pnl of the open position is `side × quantity × (close −
entry_price)` — i.e. the signed position times `(close − entry_price)`.
The equality is exact over exact rational arithmetic (hence well within
the claimed 1e-6 relative tolerance). -/
theorem cash_conservation (env : Env) (bars : List Bar) (i : Nat) (hi : i < bars.length) :
    (runAux env engineInit (bars.take (i+1))).1.exec.getEquity (bars.get ⟨i, hi⟩).close =
      100000 + sumPnl (runAux env engineInit (bars.take (i+1))).1.exec.trades +
        (runAux env engineInit (bars.take (i+1))).1.exec.position *
          ((bars.get ⟨i, hi⟩).close -
            (runAux env engineInit (bars.take (i+1))).1.exec.last_entry_price) := by
  have hgood := runAux_good env (bars.take (i+1)) engineInit engineInit_good
  obtain ⟨hinv, -, -⟩ := hgood
  unfold ExecutionEngine.getEquity
  rw [qadd_eq, qmul_eq, hinv]
  ring

/-- Witness for C2 on a one-bar run. -/
theorem cash_conservation_witness :
    let bars := [Bar.mk 1 100 100 100 100 1000]
    0 < bars.length ∧
    ((runAux envZero engineInit (bars.take 1)).1.exec.getEquity
        (bars.get ⟨0, by decide⟩).close =
      100000 + sumPnl (runAux envZero engineInit (bars.take 1)).1.exec.trades +
        (runAux envZero engineInit (bars.take 1)).1.exec.position *
          ((bars.get ⟨0, by decide⟩).close -
            (runAux envZero engineInit (bars.take 1)).1.exec.last_entry_price)) := by
  exact ⟨by decide, cash_conservation envZero _ 0 (by decide)⟩

/-! ## C4: monotone trailing stop -/

/-- State part of `check_exit`. -/
def RiskManager.checkExitS (s : RiskManager) (bar : Bar) : RiskManager :=
  (s.checkExit bar).2

theorem RiskManager.checkExit_side (s : RiskManager) (bar : Bar) :
    (s.checkExitS bar).side = s.side := by
  unfold RiskManager.checkExitS RiskManager.checkExit
  split_ifs <;> rfl

theorem RiskManager.checkExit_stop_mono_long (s : RiskManager) (bar : Bar)
    (h : s.side = 1) : s.stop_loss ≤ (s.checkExitS bar).stop_loss := by
  unfold RiskManager.checkExitS RiskManager.checkExit
  split_ifs <;>
    first
      | exact le_refl _
      | (dsimp only; rw [qmax_eq]; exact le_max_left _ _)

theorem RiskManager.checkExit_stop_mono_short (s : RiskManager) (bar : Bar)
    (h : s.side = -1) : (s.checkExitS bar).stop_loss ≤ s.stop_loss := by
  unfold RiskManager.checkExitS RiskManager.checkExit
  split_ifs with h0 h1 h2 h3 <;>
    first
      | exact le_refl _
      | exact absurd h3 (by omega)
      | (dsimp only; rw [qmin_eq]; exact min_le_left _ _)

/-- C4: while a long position is held the stored stop price is
non-decreasing across successive `check_exit` calls, and while a short
position is held it is non-increasing.  Stated over an arbitrary sequence
of bars folded through `check_exit` (`check_exit` never changes the held
side, so "while held" covers the whole fold). -/
theorem trailing_stop_monotone (s : RiskManager) (bars : List Bar) :
    (s.side = 1 → s.stop_loss ≤ (bars.foldl RiskManager.checkExitS s).stop_loss) ∧
    (s.side = -1 → (bars.foldl RiskManager.checkExitS s).stop_loss ≤ s.stop_loss) := by
  induction bars generalizing s with
  | nil => exact ⟨fun _ => le_refl _, fun _ => le_refl _⟩
  | cons b bs ih =>
    refine ⟨fun h => ?_, fun h => ?_⟩
    · calc s.stop_loss ≤ (s.checkExitS b).stop_loss :=
            RiskManager.checkExit_stop_mono_long s b h
        _ ≤ (bs.foldl RiskManager.checkExitS (s.checkExitS b)).stop_loss :=
            (ih (s.checkExitS b)).1 (by rw [RiskManager.checkExit_side]; exact h)
    · calc (bs.foldl RiskManager.checkExitS (s.checkExitS b)).stop_loss
          ≤ (s.checkExitS b).stop_loss :=
            (ih (s.checkExitS b)).2 (by rw [RiskManager.checkExit_side]; exact h)
        _ ≤ s.stop_loss := RiskManager.checkExit_stop_mono_short s b h

/-- Witness for C4 at a concrete long state and bar list. -/
theorem trailing_stop_monotone_witness :
    let s : RiskManager := ⟨⟨2, qmk 1 10, 20, 5⟩, 1, 100, 98, 100, 100, 1, 1, 0, 0⟩
    let bars := [Bar.mk 1 100 103 99 102 1000, Bar.mk 2 102 105 101 104 1000]
    s.side = 1 ∧ s.stop_loss ≤ (bars.foldl RiskManager.checkExitS s).stop_loss := by
  exact ⟨rfl, (trailing_stop_monotone _ _).1 rfl⟩

/-! ## C8: `is_invested` contract -/

/-- C8 counterexample: a reachable execution state (submit an order of
`10⁻¹⁰` units, then fill it at the next bar's open) has position `10⁻¹⁰`:
`is_invested()` returns `true` although `|position| > 1e-9` fails, so
`is_invested() ↔ |position| > ε` with `ε = 1e-9` is false at a reachable
state; the source compares `position_ != 0` with no epsilon. -/
theorem is_invested_eps_counterexample :
    let e := (ExecutionEngine.mk0 100000).applyOps
      [ExecOp.submit 1 (qmk 1 10000000000), ExecOp.barOpen (Bar.mk 1 100 100 100 100 0)]
    e.Reachable ∧ e.isInvested = true ∧ ¬(|e.position| > 1/1000000000) := by
  refine ⟨⟨100000, _, rfl⟩, by decide, ?_⟩
  have hpos : ((ExecutionEngine.mk0 100000).applyOps
      [ExecOp.submit 1 (qmk 1 10000000000),
       ExecOp.barOpen (Bar.mk 1 100 100 100 100 0)]).position = qmk 1 10000000000 := by decide
  rw [hpos, qmk_eq]
  rw [abs_of_nonneg (by norm_num)]
  norm_num

/-- C8 (amended): for every reachable execution state, `is_invested()`
returns true iff the position quantity is nonzero (the source compares
`position_ != 0` with no epsilon guard). -/
theorem is_invested_iff_position_ne_zero (e : ExecutionEngine) (_h : e.Reachable) :
    e.isInvested = true ↔ e.position ≠ 0 := by
  simp [ExecutionEngine.isInvested]

/-- Witness for C8 (amended) at a freshly constructed engine. -/
theorem is_invested_iff_position_ne_zero_witness :
    ¬((ExecutionEngine.mk0 100000).isInvested = true) := by
  rw [is_invested_iff_position_ne_zero (ExecutionEngine.mk0 100000) ⟨100000, [], rfl⟩]
  exact fun hne => hne (by decide)

/-! ## C9: degenerate log-return handling -/

/-- C9 counterexample: feed the regime detector a bar whose close is 0 and
then a bar with close 100.  At the second bar the previous close is 0, and
the claim says a zero return is pushed into the rolling-stats windows
(their size would become 1); the code instead skips the update entirely,
leaving the windows empty. -/
theorem degenerate_log_return_counterexample :
    let s := (RegimeStrategy.mk0.onBar envZero (Bar.mk 1 100 100 0 0 0)).onBar envZero
      (Bar.mk 2 100 100 100 100 0)
    s.vol_short.buffer.data = [] ∧ ¬(s.vol_short.buffer.size = 1) := by
  exact ⟨by decide, by decide⟩

/-- C9 (amended): whenever the stored previous close is zero or negative,
both the regime detector and the mean-reversion strategy skip the
volatility update for that bar: nothing is fed to any of the rolling-stats
windows, which are left unchanged. -/
theorem degenerate_log_return_skips_update (env : Env) (rs : RegimeStrategy)
    (ms : MeanReversionStrategy) (bar : Bar) (hr : rs.last_close ≤ 0)
    (hm : ms.last_close ≤ 0) :
    (rs.onBar env bar).vol_short = rs.vol_short ∧
    (rs.onBar env bar).vol_long = rs.vol_long ∧
    (ms.onBar env bar).vol_20 = ms.vol_20 ∧
    (ms.onBar env bar).vol_60 = ms.vol_60 := by
  have hr' : qlt 0 rs.last_close = false := by
    rw [Bool.eq_false_iff]
    intro hc
    exact absurd ((qlt_iff _ _).mp hc) (not_lt.mpr hr)
  have hm' : qlt 0 ms.last_close = false := by
    rw [Bool.eq_false_iff]
    intro hc
    exact absurd ((qlt_iff _ _).mp hc) (not_lt.mpr hm)
  unfold RegimeStrategy.onBar MeanReversionStrategy.onBar
  simp only [hr', hm', Bool.false_eq_true, if_false]
  refine ⟨?_, ?_, ?_, ?_⟩ <;> split_ifs <;> rfl

/-- Witness for C9 (amended) on fresh strategy states (stored previous
close 0). -/
theorem degenerate_log_return_skips_update_witness :
    (RegimeStrategy.mk0.onBar envZero (Bar.mk 1 100 100 100 100 0)).vol_short =
      RegimeStrategy.mk0.vol_short := by
  exact (degenerate_log_return_skips_update envZero RegimeStrategy.mk0
    MeanReversionStrategy.mk0 (Bar.mk 1 100 100 100 100 0) le_rfl le_rfl).1

/-! ### C3: streaming indicators vs the batch functions of `features.cpp` -/

/-- Left `qadd`-fold, mirroring the `sum += x` accumulation loops of
`features.cpp`. -/
def listSumQ (l : List ℚ) : ℚ := l.foldl qadd 0

/-- The sliding sum of batch `sma()` after `j` slide steps: the initial
value is the sum of the first `period` prices, and step `j` replaces
`prices[j]` by `prices[period + j]`. -/
def smaSum (prices : List ℚ) (period : Nat) : Nat → ℚ
  | 0 => listSumQ (prices.take period)
  | j + 1 => qadd (qsub (smaSum prices period j) (prices.getD j 0)) (prices.getD (period + j) 0)

/-- Batch `sma()` from `features.cpp`, read off at result index `i`
(`none` encodes the NaN padding). -/
def sma (prices : List ℚ) (period : Nat) (i : Nat) : Option ℚ :=
  if prices.length < period ∨ i + 1 < period ∨ prices.length ≤ i then none
  else some (qdiv (smaSum prices period (i + 1 - period)) (qofNat period))

/-- Consecutive price changes `prices[i] - prices[i-1]` (`i ≥ 1`), as
accumulated by batch `rsi()`. -/
def deltasQ : List ℚ → List ℚ
  | a :: b :: rest => qsub b a :: deltasQ (b :: rest)
  | _ => []

/-- `change > 0 ? change : 0.0` from batch `rsi()`. -/
def gainOf (c : ℚ) : ℚ := if qlt 0 c then c else 0

/-- `change < 0 ? -change : 0.0` from batch `rsi()`. -/
def lossOf (c : ℚ) : ℚ := if qlt c 0 then qneg c else 0

/-- One Wilder smoothing step as written in batch `rsi()` and `atr()`:
`alpha * x + (1 - alpha) * avg` with `alpha = 1/period`. -/
def wilderStep (period : Nat) (avg x : ℚ) : ℚ :=
  qadd (qmul (qmk 1 (period : Int)) x) (qmul (qsub 1 (qmk 1 (period : Int))) avg)

/-- Batch `rsi()` from `features.cpp` at result index `i`. -/
def rsi (prices : List ℚ) (period : Nat) (i : Nat) : Option ℚ :=
  if prices.length < period + 1 ∨ i < period ∨ prices.length ≤ i then none
  else
    let gains := (deltasQ prices).map gainOf
    let losses := (deltasQ prices).map lossOf
    let ag := ((gains.take i).drop period).foldl (wilderStep period)
      (qdiv (listSumQ (gains.take period)) (qofNat period))
    let al := ((losses.take i).drop period).foldl (wilderStep period)
      (qdiv (listSumQ (losses.take period)) (qofNat period))
    some (if al = 0 then 100 else qsub 100 (qdiv 100 (qadd 1 (qdiv ag al))))

/-- True ranges of batch `atr()` (`i ≥ 1`; bar `i`'s high/low against bar
`i-1`'s close). -/
def trueRanges : List ℚ → List ℚ → List ℚ → List ℚ
  | _ :: h2 :: hs, _ :: l2 :: ls, c1 :: c2 :: cs =>
      qmax (qsub h2 l2) (qmax (qabs (qsub h2 c1)) (qabs (qsub l2 c1))) ::
        trueRanges (h2 :: hs) (l2 :: ls) (c2 :: cs)
  | _, _, _ => []

/-- Batch `atr()` from `features.cpp` at result index `i`. -/
def atr (high low close : List ℚ) (period : Nat) (i : Nat) : Option ℚ :=
  if high.length ≠ low.length ∨ high.length ≠ close.length ∨
      high.length < period + 1 then none
  else if i < period ∨ close.length ≤ i then none
  else
    let trs := trueRanges high low close
    some (((trs.take i).drop period).foldl (wilderStep period)
      (qdiv (listSumQ (trs.take period)) (qofNat period)))

/-- The streaming SMA state after feeding `xs` one update at a time. -/
def smaStream (p : Nat) (xs : List ℚ) : SimpleMovingAverage :=
  xs.foldl SimpleMovingAverage.update (SimpleMovingAverage.mk0 p)

/-- The streaming RSI state after feeding `xs` one update at a time. -/
def rsiStream (p : Nat) (xs : List ℚ) : RSI :=
  xs.foldl RSI.update (RSI.mk0 p)

theorem listSumQ_snoc (l : List ℚ) (x : ℚ) :
    listSumQ (l ++ [x]) = qadd (listSumQ l) x := by
  unfold listSumQ
  rw [List.foldl_append]
  rfl

theorem take_succ_getD (l : List ℚ) (k : Nat) (h : k < l.length) :
    l.take (k+1) = l.take k ++ [l.getD k 0] := by
  rw [List.getD_eq_getElem l 0 h, ← List.take_concat_get l k h, List.concat_eq_append]

theorem take_cons_take (x : ℚ) (l : List ℚ) (p : Nat) :
    (x :: l.take p).take p = (x :: l).take p := by
  cases p with
  | zero => rfl
  | succ q =>
      rw [List.take_succ_cons, List.take_succ_cons, List.take_take,
        Nat.min_eq_left (Nat.le_succ q)]

theorem getD_take_of_lt (l : List ℚ) (n j : Nat) (h1 : j < n) (h2 : j < l.length) :
    (l.take n).getD j 0 = l.getD j 0 := by
  rw [List.getD_eq_getElem _ 0 (by simp [List.length_take]; omega),
    List.getD_eq_getElem l 0 h2]
  exact (List.getElem_take' l h2 h1).symm

theorem getD_reverse (l : List ℚ) (j : Nat) (h : j < l.length) :
    l.reverse.getD j 0 = l.getD (l.length - 1 - j) 0 := by
  rw [List.getD_eq_getElem _ 0 (by simpa using h), List.getD_eq_getElem l 0 (by omega)]
  exact List.getElem_reverse ..

/-- State of the streaming SMA after consuming the length-`k` prefix of
`prices`: the window holds the last `min k p` prices and the running sum
follows exactly the sliding sum of batch `sma()`. -/
theorem smaStream_char (p : Nat) (hp : 0 < p) (prices : List ℚ) :
    ∀ k, k ≤ prices.length →
      (smaStream p (prices.take k)).period = p ∧
      (smaStream p (prices.take k)).buffer.capacity = p ∧
      (smaStream p (prices.take k)).buffer.data = ((prices.take k).reverse).take p ∧
      (smaStream p (prices.take k)).sum =
        (if k < p then listSumQ (prices.take k) else smaSum prices p (k - p)) ∧
      (smaStream p (prices.take k)).current_value =
        qdiv (if k < p then listSumQ (prices.take k) else smaSum prices p (k - p))
          (qofNat (min k p)) := by
  intro k
  induction k with
  | zero =>
      intro _
      refine ⟨rfl, rfl, by simp; rfl, ?_, ?_⟩
      · rw [if_pos hp]
        rfl
      · rw [if_pos hp]
        show (0 : ℚ) = qdiv 0 (qofNat (min 0 p))
        rw [qdiv_eq, qofNat_eq]
        simp
  | succ k ih =>
      intro hk1
      have hk : k ≤ prices.length := by omega
      have hklen : k < prices.length := by omega
      obtain ⟨h1, h2, h3, h4, h5⟩ := ih hk
      have hsnoc : prices.take (k+1) = prices.take k ++ [prices.getD k 0] :=
        take_succ_getD prices k hklen
      have hfold : smaStream p (prices.take (k+1)) =
          SimpleMovingAverage.update (smaStream p (prices.take k)) (prices.getD k 0) := by
        rw [hsnoc]
        unfold smaStream
        rw [List.foldl_append]
        rfl
      have hs : smaStream p (prices.take k) =
          ⟨p, (if k < p then listSumQ (prices.take k) else smaSum prices p (k - p)),
            ⟨p, ((prices.take k).reverse).take p⟩,
            qdiv (if k < p then listSumQ (prices.take k) else smaSum prices p (k - p))
              (qofNat (min k p))⟩ := by
        calc smaStream p (prices.take k)
            = ⟨(smaStream p (prices.take k)).period, (smaStream p (prices.take k)).sum,
                ⟨(smaStream p (prices.take k)).buffer.capacity,
                  (smaStream p (prices.take k)).buffer.data⟩,
                (smaStream p (prices.take k)).current_value⟩ := rfl
          _ = _ := by rw [h1, h2, h3, h4, h5]
      have hrevlen : ((prices.take k).reverse).length = k := by
        simp [List.length_take]
        omega
      have hdatalen : (((prices.take k).reverse).take p).length = min p k := by
        simp [List.length_take]
        omega
      have hrevsnoc : (prices.take (k+1)).reverse = prices.getD k 0 :: (prices.take k).reverse := by
        rw [hsnoc]
        simp
      have hdata : ((prices.getD k 0) :: ((prices.take k).reverse).take p).take p =
          ((prices.take (k+1)).reverse).take p := by
        rw [hrevsnoc, take_cons_take]
      rw [hfold, hs]
      unfold SimpleMovingAverage.update
      dsimp only
      by_cases hcase : p ≤ k
      · -- window already full: the evicted element is `prices[k-p]`
        have hfull : (CircularBuffer.isFull ⟨p, ((prices.take k).reverse).take p⟩) = true := by
          unfold CircularBuffer.isFull
          dsimp only
          rw [hdatalen]
          simp
          omega
        have hget : (CircularBuffer.get ⟨p, ((prices.take k).reverse).take p⟩ (p - 1)) =
            prices.getD (k - p) 0 := by
          unfold CircularBuffer.get
          dsimp only
          rw [getD_take_of_lt _ _ _ (by omega) (by rw [hrevlen]; omega),
            getD_reverse _ _ (by rw [List.length_take]; omega)]
          rw [List.length_take]
          have hidx : min k prices.length - 1 - (p - 1) = k - p := by omega
          rw [hidx, getD_take_of_lt _ _ _ (by omega) (by omega)]
        rw [hfull, if_pos rfl, hget]
        have hsum : qadd (qsub
            (if k < p then listSumQ (prices.take k) else smaSum prices p (k - p))
            (prices.getD (k - p) 0)) (prices.getD k 0) =
            (if k + 1 < p then listSumQ (prices.take (k+1)) else smaSum prices p (k + 1 - p)) := by
          rw [if_neg (by omega), if_neg (by omega)]
          have hstep : k + 1 - p = (k - p) + 1 := by omega
          rw [hstep]
          show _ = qadd (qsub (smaSum prices p (k - p)) (prices.getD (k - p) 0))
            (prices.getD (p + (k - p)) 0)
          have hpk : p + (k - p) = k := by omega
          rw [hpk]
        refine ⟨rfl, rfl, ?_, ?_, ?_⟩
        · exact hdata
        · exact hsum
        · rw [hsum]
          have hsize : (CircularBuffer.push ⟨p, ((prices.take k).reverse).take p⟩
              (prices.getD k 0)).size = min (k+1) p := by
            unfold CircularBuffer.push CircularBuffer.size
            dsimp only
            rw [List.length_take]
            simp [hdatalen]
            omega
          rw [hsize]
      · -- window still filling up
        have hnotfull : (CircularBuffer.isFull ⟨p, ((prices.take k).reverse).take p⟩) = false := by
          unfold CircularBuffer.isFull
          dsimp only
          rw [hdatalen]
          simp
          omega
        rw [hnotfull]
        rw [if_neg (by simp)]
        have hsum : qadd
            (if k < p then listSumQ (prices.take k) else smaSum prices p (k - p))
            (prices.getD k 0) =
            (if k + 1 < p then listSumQ (prices.take (k+1)) else smaSum prices p (k + 1 - p)) := by
          rw [if_pos (by omega)]
          by_cases hk1p : k + 1 < p
          · rw [if_pos hk1p, hsnoc, listSumQ_snoc]
          · have hkp : k + 1 = p := by omega
            rw [if_neg hk1p]
            have hz : k + 1 - p = 0 := by omega
            rw [hz]
            show _ = listSumQ (prices.take p)
            rw [← hkp, hsnoc, listSumQ_snoc]
        refine ⟨rfl, rfl, ?_, ?_, ?_⟩
        · exact hdata
        · exact hsum
        · rw [hsum]
          have hsize : (CircularBuffer.push ⟨p, ((prices.take k).reverse).take p⟩
              (prices.getD k 0)).size = min (k+1) p := by
            unfold CircularBuffer.push CircularBuffer.size
            dsimp only
            rw [List.length_take]
            simp [hdatalen]
            omega
          rw [hsize]

theorem deltasQ_length : ∀ l : List ℚ, (deltasQ l).length = l.length - 1
  | [] => rfl
  | [_] => rfl
  | a :: b :: t => by
      show (qsub b a :: deltasQ (b :: t)).length = t.length + 1
      simp [deltasQ_length (b :: t)]

theorem deltasQ_snoc : ∀ (l : List ℚ) (last x : ℚ), l.getLast? = some last →
    deltasQ (l ++ [x]) = deltasQ l ++ [qsub x last]
  | [], _, _, h => by simp at h
  | [a], _, x, h => by
      simp at h
      subst h
      rfl
  | a :: b :: t, last, x, h => by
      rw [List.getLast?_cons_cons] at h
      show qsub b a :: deltasQ ((b :: t) ++ [x]) = (qsub b a :: deltasQ (b :: t)) ++ [qsub x last]
      rw [deltasQ_snoc (b :: t) last x h]
      rfl

theorem deltasQ_take : ∀ (l : List ℚ) (k : Nat), deltasQ (l.take (k+1)) = (deltasQ l).take k
  | [], _ => by simp [deltasQ]
  | [_], _ => by simp [deltasQ]
  | _ :: _ :: _, 0 => rfl
  | a :: b :: t, k + 1 => by
      show qsub b a :: deltasQ ((b :: t).take (k+1)) = qsub b a :: (deltasQ (b :: t)).take k
      rw [deltasQ_take (b :: t) k]

/-- One streaming Wilder step as written in `RSI::update`:
`(avg * (period - 1) + x) / period`. -/
def streamStep (p : Nat) (avg x : ℚ) : ℚ :=
  qdiv (qadd (qmul avg (qofInt ((p : Int) - 1))) x) (qofNat p)

/-- The gain/loss average maintained by the streaming RSI as a function of
the list of gains (or losses) seen so far: a plain running total while
fewer than `period` deltas have arrived, then Wilder smoothing seeded with
the average of the first `period` entries. -/
def runAvg (p : Nat) (gs : List ℚ) : ℚ :=
  if gs.length < p then listSumQ gs
  else (gs.drop p).foldl (streamStep p) (qdiv (listSumQ (gs.take p)) (qofNat p))

/-- The RSI output formula shared by `RSI::update` and batch `rsi()`. -/
def rsiVal (ag al : ℚ) : ℚ :=
  if al = 0 then 100 else qsub 100 (qdiv 100 (qadd 1 (qdiv ag al)))

theorem runAvg_snoc_lt (p : Nat) (gs : List ℚ) (g : ℚ) (h : gs.length + 1 < p) :
    runAvg p (gs ++ [g]) = qadd (runAvg p gs) g := by
  unfold runAvg
  rw [if_pos (show (gs ++ [g]).length < p by simp; omega), if_pos (by omega), listSumQ_snoc]

theorem runAvg_snoc_eq (p : Nat) (gs : List ℚ) (g : ℚ) (h : gs.length + 1 = p) :
    runAvg p (gs ++ [g]) = qdiv (qadd (runAvg p gs) g) (qofNat p) := by
  unfold runAvg
  rw [if_neg (show ¬(gs ++ [g]).length < p by simp; omega), if_pos (show gs.length < p by omega)]
  rw [List.drop_eq_nil_of_le (by simp; omega), List.take_of_length_le (by simp; omega),
    listSumQ_snoc]
  rfl

theorem runAvg_snoc_ge (p : Nat) (gs : List ℚ) (g : ℚ) (h : p ≤ gs.length) :
    runAvg p (gs ++ [g]) = streamStep p (runAvg p gs) g := by
  unfold runAvg
  rw [if_neg (show ¬(gs ++ [g]).length < p by simp; omega), if_neg (show ¬gs.length < p by omega)]
  rw [List.drop_append_of_le_length h, List.take_append_of_le_length h, List.foldl_append]
  rfl

/-- State of the streaming RSI after consuming `xs`: the stored previous
price is the last input, the primed counter is `min (number of deltas)
period`, both averages follow `runAvg` over the gain/loss streams, and the
output is 0 until `period` deltas have arrived. -/
theorem rsiStream_char (p : Nat) (hp : 0 < p) (xs : List ℚ) :
    (rsiStream p xs).period = p ∧
    (rsiStream p xs).prev_price = xs.getLast? ∧
    (rsiStream p xs).initialized_count = min (xs.length - 1) p ∧
    (rsiStream p xs).avg_gain = runAvg p ((deltasQ xs).map gainOf) ∧
    (rsiStream p xs).avg_loss = runAvg p ((deltasQ xs).map lossOf) ∧
    (rsiStream p xs).current_value =
      (if xs.length - 1 < p then 0
       else rsiVal (runAvg p ((deltasQ xs).map gainOf))
         (runAvg p ((deltasQ xs).map lossOf))) := by
  induction xs using List.reverseRecOn with
  | nil =>
      refine ⟨rfl, rfl, by simp; rfl, ?_, ?_, ?_⟩
      · show (0 : ℚ) = runAvg p []
        unfold runAvg
        rw [if_pos (by simpa using hp)]
        rfl
      · show (0 : ℚ) = runAvg p []
        unfold runAvg
        rw [if_pos (by simpa using hp)]
        rfl
      · rw [if_pos (by simpa using hp)]
        rfl
  | append_singleton l x ih =>
      by_cases hl : l = []
      · subst hl
        refine ⟨rfl, by simp; rfl, by simp; rfl, ?_, ?_, ?_⟩
        · show (0 : ℚ) = runAvg p ((deltasQ [x]).map gainOf)
          unfold runAvg
          rw [if_pos (by simpa using hp)]
          rfl
        · show (0 : ℚ) = runAvg p ((deltasQ [x]).map lossOf)
          unfold runAvg
          rw [if_pos (by simpa using hp)]
          rfl
        · rw [if_pos (by simpa using hp)]
          rfl
      · obtain ⟨last, hlast⟩ : ∃ last, l.getLast? = some last := by
          cases hq : l.getLast? with
          | none => exact absurd (List.getLast?_eq_none_iff.mp hq) hl
          | some y => exact ⟨y, rfl⟩
        have hlen1 : 1 ≤ l.length := List.length_pos.mpr hl
        obtain ⟨h1, h2, h3, h4, h5, h6⟩ := ih
        have hgs : (deltasQ (l ++ [x])).map gainOf =
            (deltasQ l).map gainOf ++ [gainOf (qsub x last)] := by
          rw [deltasQ_snoc l last x hlast, List.map_append]
          rfl
        have hls : (deltasQ (l ++ [x])).map lossOf =
            (deltasQ l).map lossOf ++ [lossOf (qsub x last)] := by
          rw [deltasQ_snoc l last x hlast, List.map_append]
          rfl
        have hglen : ((deltasQ l).map gainOf).length = l.length - 1 := by
          rw [List.length_map, deltasQ_length]
        have hllen : ((deltasQ l).map lossOf).length = l.length - 1 := by
          rw [List.length_map, deltasQ_length]
        have hlen' : (l ++ [x]).length - 1 = (l.length - 1) + 1 := by
          simp
          omega
        have hfold : rsiStream p (l ++ [x]) = RSI.update (rsiStream p l) x := by
          unfold rsiStream
          rw [List.foldl_append]
          rfl
        have hs : rsiStream p l = ⟨p, runAvg p ((deltasQ l).map gainOf),
            runAvg p ((deltasQ l).map lossOf), some last, min (l.length - 1) p,
            (if l.length - 1 < p then 0
             else rsiVal (runAvg p ((deltasQ l).map gainOf))
               (runAvg p ((deltasQ l).map lossOf)))⟩ := by
          calc rsiStream p l = ⟨(rsiStream p l).period, (rsiStream p l).avg_gain,
              (rsiStream p l).avg_loss, (rsiStream p l).prev_price,
              (rsiStream p l).initialized_count, (rsiStream p l).current_value⟩ := rfl
            _ = _ := by rw [h1, h2, h3, h4, h5, h6, hlast]
        rw [hfold, hs]
        unfold RSI.update RSI.updateRet
        dsimp only
        have hgain : (if qlt 0 (qsub x last) = true then qsub x last else 0) =
            gainOf (qsub x last) := rfl
        have hloss : (if qlt (qsub x last) 0 = true then qneg (qsub x last) else 0) =
            lossOf (qsub x last) := rfl
        simp only [hgain, hloss]
        rcases Nat.lt_trichotomy (l.length - 1 + 1) p with hA | hB | hC
        · have hd : l.length - 1 < p := by omega
          have hmin : min (l.length - 1) p = l.length - 1 := by omega
          simp only [hmin, if_pos hd, if_neg (show ¬(l.length - 1 + 1 = p) by omega),
            if_pos (show l.length - 1 + 1 < p by omega)]
          refine ⟨by trivial, (List.getLast?_concat l).symm, ?_, ?_, ?_, ?_⟩
          · rw [hlen']
            omega
          · rw [hgs, runAvg_snoc_lt _ _ _ (by rw [hglen]; omega)]
          · rw [hls, runAvg_snoc_lt _ _ _ (by rw [hllen]; omega)]
          · rw [hlen', if_pos (show l.length - 1 + 1 < p by omega)]
        · have hd : l.length - 1 < p := by omega
          have hmin : min (l.length - 1) p = l.length - 1 := by omega
          have hag : qdiv (qadd (runAvg p ((deltasQ l).map gainOf)) (gainOf (qsub x last)))
              (qofNat p) = runAvg p ((deltasQ (l ++ [x])).map gainOf) := by
            rw [hgs, runAvg_snoc_eq _ _ _ (by rw [hglen]; omega)]
          have hal : qdiv (qadd (runAvg p ((deltasQ l).map lossOf)) (lossOf (qsub x last)))
              (qofNat p) = runAvg p ((deltasQ (l ++ [x])).map lossOf) := by
            rw [hls, runAvg_snoc_eq _ _ _ (by rw [hllen]; omega)]
          simp only [hmin, if_pos hd, if_pos hB, if_neg (show ¬(l.length - 1 + 1 < p) by omega)]
          refine ⟨by trivial, (List.getLast?_concat l).symm, ?_, ?_, ?_, ?_⟩
          · rw [hlen']
            omega
          · exact hag
          · exact hal
          · rw [hlen', if_neg (show ¬(l.length - 1 + 1 < p) by omega), hag, hal]
            rfl
        · have hd : ¬(l.length - 1 < p) := by omega
          have hmin : min (l.length - 1) p = p := by omega
          have hag : qdiv (qadd (qmul (runAvg p ((deltasQ l).map gainOf))
              (qofInt ((p : Int) - 1))) (gainOf (qsub x last))) (qofNat p) =
              runAvg p ((deltasQ (l ++ [x])).map gainOf) := by
            rw [hgs, runAvg_snoc_ge _ _ _ (by rw [hglen]; omega)]
            rfl
          have hal : qdiv (qadd (qmul (runAvg p ((deltasQ l).map lossOf))
              (qofInt ((p : Int) - 1))) (lossOf (qsub x last))) (qofNat p) =
              runAvg p ((deltasQ (l ++ [x])).map lossOf) := by
            rw [hls, runAvg_snoc_ge _ _ _ (by rw [hllen]; omega)]
            rfl
          simp only [hmin, if_neg (show ¬(p < p) by omega)]
          refine ⟨by trivial, (List.getLast?_concat l).symm, ?_, ?_, ?_, ?_⟩
          · rw [hlen']
            omega
          · exact hag
          · exact hal
          · rw [hlen', if_neg (show ¬(l.length - 1 + 1 < p) by omega), hag, hal]
            rfl

/-- Over exact rationals the streaming Wilder step
`(avg*(p-1) + x)/p` and the batch step `(1/p)*x + (1 - 1/p)*avg`
coincide. -/
theorem streamStep_eq_wilderStep (p : Nat) (hp : 0 < p) : streamStep p = wilderStep p := by
  funext a x
  unfold streamStep wilderStep
  simp only [qdiv_eq, qadd_eq, qmul_eq, qsub_eq, qofInt_eq, qofNat_eq, qmk_eq]
  have hp0 : ((p : ℚ)) ≠ 0 := Nat.cast_ne_zero.mpr (by omega)
  push_cast
  field_simp
  ring

/-- C3 (amended): for every price sequence, period `p > 0` and prefix
length `1 ≤ k ≤ length`, the streaming `SimpleMovingAverage` and `RSI`
outputs after `k` updates equal batch `sma()` / `rsi()` at result index
`k-1` (exactly, not merely within 1e-9), whenever the batch value is
defined there.  The corresponding statement for the streaming `ATR`
against batch `atr()` is false: see
`streaming_batch_atr_counterexample`. -/
theorem streaming_batch_equivalence (prices : List ℚ) (p k : Nat) (hp : 0 < p)
    (hk1 : 1 ≤ k) (hk : k ≤ prices.length) :
    (∀ v, sma prices p (k - 1) = some v → (smaStream p (prices.take k)).value = v) ∧
    (∀ v, rsi prices p (k - 1) = some v → (rsiStream p (prices.take k)).value = v) := by
  constructor
  · intro v hb
    unfold sma at hb
    by_cases hg : prices.length < p ∨ (k - 1) + 1 < p ∨ prices.length ≤ k - 1
    · rw [if_pos hg] at hb
      exact absurd hb (by simp)
    · rw [if_neg hg] at hb
      push_neg at hg
      obtain ⟨hg1, hg2, hg3⟩ := hg
      simp only [Option.some.injEq] at hb
      obtain ⟨-, -, -, -, h5⟩ := smaStream_char p hp prices k hk
      show (smaStream p (prices.take k)).current_value = v
      rw [h5, if_neg (show ¬k < p by omega)]
      rw [← hb]
      have hidx : k - 1 + 1 - p = k - p := by omega
      have hmin : min k p = p := by omega
      rw [hidx, hmin]
  · intro v hb
    unfold rsi at hb
    by_cases hg : prices.length < p + 1 ∨ (k - 1) < p ∨ prices.length ≤ k - 1
    · rw [if_pos hg] at hb
      exact absurd hb (by simp)
    · rw [if_neg hg] at hb
      push_neg at hg
      obtain ⟨hg1, hg2, hg3⟩ := hg
      dsimp only at hb
      simp only [Option.some.injEq] at hb
      obtain ⟨-, -, -, -, -, h6⟩ := rsiStream_char p hp (prices.take k)
      show (rsiStream p (prices.take k)).current_value = v
      have hlenk : (prices.take k).length = k := by
        rw [List.length_take]
        omega
      rw [h6, hlenk, if_neg (show ¬k - 1 < p by omega)]
      have hdt : deltasQ (prices.take k) = (deltasQ prices).take (k - 1) := by
        have h := deltasQ_take prices (k - 1)
        rw [show k - 1 + 1 = k by omega] at h
        exact h
      rw [hdt, List.map_take, List.map_take]
      have hrun : ∀ gs : List ℚ, gs.length = prices.length - 1 →
          runAvg p (gs.take (k - 1)) = ((gs.take (k - 1)).drop p).foldl (streamStep p)
            (qdiv (listSumQ (gs.take p)) (qofNat p)) := by
        intro gs hlen
        unfold runAvg
        rw [if_neg (show ¬(gs.take (k - 1)).length < p by rw [List.length_take]; omega)]
        rw [List.take_take, Nat.min_eq_left (by omega)]
      rw [hrun _ (by rw [List.length_map, deltasQ_length]),
        hrun _ (by rw [List.length_map, deltasQ_length]),
        streamStep_eq_wilderStep p hp]
      rw [← hb]
      rfl

/-- Witness for C3 (amended) on prices `[1, 2, 3]` with period 2:
`sma()` gives `5/2` and `rsi()` gives `100` at index 2, matching the
streaming indicators after all 3 updates. -/
theorem streaming_batch_equivalence_witness :
    (smaStream 2 ([1, 2, 3] : List ℚ)).value = qmk 5 2 ∧
    (rsiStream 2 ([1, 2, 3] : List ℚ)).value = 100 := by
  constructor
  · exact (streaming_batch_equivalence [1, 2, 3] 2 3 (by decide) (by decide)
      (by decide)).1 (qmk 5 2) (by decide)
  · exact (streaming_batch_equivalence [1, 2, 3] 2 3 (by decide) (by decide)
      (by decide)).2 100 (by decide)

/-- C3 counterexample: the claim as stated ("each streaming indicator
matches its batch function within 1e-9") fails for `ATR`.  With period 2
and bars `(high, low, close)` of `(10,0,5)`, `(6,5,6)`, `(7,6,7)`, after 3
updates the streaming ATR is ready with value `13/4`, while batch `atr()`
at index 2 is `1`; they differ by `9/4 > 1e-9`.  (The streaming warmup
counts bar 0's `high - low` as a first true range; the batch version
discards bar 0.) -/
theorem streaming_batch_atr_counterexample :
    atr [10, 6, 7] [0, 5, 6] [5, 6, 7] 2 2 = some 1 ∧
    (ATR.update (ATR.update (ATR.update (ATR.mk0 2) 10 0 5) 6 5 6) 7 6 7).isReady = true ∧
    (ATR.update (ATR.update (ATR.update (ATR.mk0 2) 10 0 5) 6 5 6) 7 6 7).value = qmk 13 4 ∧
    ¬(|(ATR.update (ATR.update (ATR.update (ATR.mk0 2) 10 0 5) 6 5 6) 7 6 7).value - 1| ≤
        1 / 1000000000) := by
  refine ⟨by decide, by decide, by decide, ?_⟩
  have hv : (ATR.update (ATR.update (ATR.update (ATR.mk0 2) 10 0 5) 6 5 6) 7 6 7).value =
      qmk 13 4 := by decide
  rw [hv, qmk_eq]
  push_cast
  rw [show ((13 : ℚ)) / 4 - 1 = 9 / 4 by norm_num,
    abs_of_nonneg (show (0 : ℚ) ≤ 9 / 4 by norm_num)]
  norm_num

/-! ### C7: constant-price scenario S1 (500 bars of OHLC 100, volume 1000) -/

/-- The S1 input: 500 bars whose open, high, low and close are all `100.0`
and whose volume is `1000`, one bar per calendar day. -/
def s1bars : List Bar := (List.range 500).map
  (fun i => ⟨(i : Int) * 86400, 100, 100, 100, 100, 1000⟩)

/-- Environment for the concrete engine runs.  `std::log` and `std::sqrt`
are pinned to their true values — correctly rounded rationals with at
least 18 significant digits — at every argument the concrete runs below
produce, and poisoned (`999`) everywhere else, so the staged kernel
evaluations certify that no other argument is ever consulted.  The
constant-price warmup only reaches `log 1` and `sqrt 0`, where the pins
are exact (`0`).  In the C6 action phase every branch condition that
depends on a pinned value decides with a wide margin (the tightest,
the band position `-1.089 < -0.8` at bar 353, has a relative margin
above `10⁻¹`, versus the `10⁻¹⁸` rounding of the pins), so each
decision equals the one the real `std::log`/`std::sqrt` produce.  The
civil day of a timestamp is its floor-division by 86400. -/
def envPin : Env :=
  ⟨fun x =>
    if x = 1 then 0
    else if x = qmk 507 500 then qmk 13902905168991421 1000000000000000000
    else if x = qmk 500 507 then qmk (-13902905168991421) 1000000000000000000
    else if x = qmk 997 1000 then qmk (-3004509020298722) 1000000000000000000
    else if x = qmk 1989 1994 then qmk (-2510671667811441) 1000000000000000000
    else if x = qmk 9952 9945 then qmk 703623690888108 1000000000000000000
    else 999,
   fun v =>
    if v = 0 then 0
    else if v = qmk 110581662049940732016167906707729 625000000000000000000000000000000000000 then qmk 420631262841821080000 1000000000000000000000000
    else if v = qmk 736110115807870160604565842601681 2500000000000000000000000000000000000000 then qmk 542626986357247131194 1000000000000000000000000
    else if v = qmk 30725222720472284836365763161937 100000000000000000000000000000000000000 then qmk 554303371092692208573 1000000000000000000000000
    else if v = qmk 42878603652017834863412045458099 100000000000000000000000000000000000000 then qmk 654817559721926171739 1000000000000000000000000
    else if v = qmk 276193715509646089615260482708731 400000000000000000000000000000000000000 then qmk 830953842745862283095 1000000000000000000000000
    else if v = qmk 58672315752442587442293088913111 80000000000000000000000000000000000000 then qmk 856390067028764844389 1000000000000000000000000
    else if v = qmk 38464863655455706130307963948248959 40000000000000000000000000000000000000000 then qmk 980623062846470408903 1000000000000000000000000
    else if v = qmk 193290772137968372514110371599241 100000000000000000000000000000000000000 then qmk 1390290516899142100000 1000000000000000000000000
    else if v = qmk 4851 2500000000 then qmk 1392982411949267936628 1000000000000000000000000
    else if v = qmk 19778174167836392469190984372879979 10000000000000000000000000000000000000000 then qmk 1406348966929488396287 1000000000000000000000000
    else if v = qmk 80352000972486339521195241281762831 40000000000000000000000000000000000000000 then qmk 1417321425898923778783 1000000000000000000000000
    else if v = qmk 3218331374777885081801667435646367 1600000000000000000000000000000000000000 then qmk 1418258477583045570891 1000000000000000000000000
    else if v = qmk 20379 10000000000 then qmk 1427550349374760231613 1000000000000000000000000
    else if v = qmk 93979 40000000000 then qmk 1532799725991624777991 1000000000000000000000000
    else if v = qmk 2582851 1000000000000 then qmk 1607125072917475206671 1000000000000000000000000
    else if v = qmk 2811619 1000000000000 then qmk 1676788299100396275186 1000000000000000000000000
    else if v = qmk 11404155556140133978332511924355219 3600000000000000000000000000000000000000 then qmk 1779837348696982446506 1000000000000000000000000
    else if v = qmk 9471247834760450253191408208362809 2500000000000000000000000000000000000000 then qmk 1946406723658798940000 1000000000000000000000000
    else if v = qmk 193290772137968372514110371599241 30000000000000000000000000000000000000 then qmk 2538311591970591597055 1000000000000000000000000
    else if v = qmk 5931872512321632873157064341768169 900000000000000000000000000000000000000 then qmk 2567288347290803958484 1000000000000000000000000
    else if v = qmk 24084308239130149552627578887808251 3600000000000000000000000000000000000000 then qmk 2586519982907651362797 1000000000000000000000000
    else if v = qmk 4824255910863575310100322976490327 720000000000000000000000000000000000000 then qmk 2588504477831739372491 1000000000000000000000000
    else if v = qmk 193290772137968372514110371599241 25000000000000000000000000000000000000 then qmk 2780581033798284200000 1000000000000000000000000
    else if v = qmk 3672524670621399077768097060385579 400000000000000000000000000000000000000 then qmk 3030067932663143724855 1000000000000000000000000
    else if v = qmk 193290772137968372514110371599241 10000000000000000000000000000000000000 then qmk 4396484642734105724515 1000000000000000000000000
    else if v = qmk 4851 250000 then qmk 139298241194926793662827 1000000000000000000000000
    else if v = qmk 20379 1000000 then qmk 142755034937476023161252 1000000000000000000000000
    else if v = qmk 93979 4000000 then qmk 153279972599162477799136 1000000000000000000000000
    else if v = qmk 2582851 100000000 then qmk 160712507291747520667086 1000000000000000000000000
    else if v = qmk 2811619 100000000 then qmk 167678829910039627518594 1000000000000000000000000
    else 999,
   fun t => t.fdiv 86400⟩

/-- 50-bar slices of `s1bars` (the engine evaluation is staged through
them). -/
def c7chunk (i : Nat) : List Bar := (List.range 50).map
  (fun j => ⟨((50 * i + j : Nat) : Int) * 86400, 100, 100, 100, 100, 1000⟩)

/-- Closed form of the engine state after `k` S1 bars: the execution
engine and risk manager stay at their initial values, every rolling
window fills with the constant inputs (closes 100, log-returns 0, volumes
1000), and the regime reads `UNDEFINED` until bar 300 and `HV_RANGE` from
then on.  For `k ≥ 300` the formula is constant in `k`. -/
def c7state (k : Nat) : EngineState :=
  ⟨ExecutionEngine.mk0 100000, RiskManager.mk0 ⟨2, qmk 1 10, 20, 5⟩,
   ⟨⟨50, ⟨50, List.replicate (min (k-1) 50) 0⟩, 0, 0, 0, 0, 0⟩,
    ⟨200, ⟨200, List.replicate (min (k-1) 200) 0⟩, 0, 0, 0, 0, 0⟩,
    ⟨300, qmul 100 (qofNat (min k 300)), ⟨300, List.replicate (min k 300) 100⟩, 100⟩,
    100, if k < 300 then "UNDEFINED" else "HV_RANGE"⟩,
   ⟨⟨100, ⟨101, List.replicate (min k 101) 100⟩, 0⟩,
    ⟨100, ⟨100, List.replicate (min k 100) 0⟩, 0, 0, 0, 0, 0⟩,
    ⟨12, qmk 2 13, true, 100⟩,
    ⟨26, qmk 2 27, true, 100⟩,
    ⟨20, qmul 1000 (qofNat (min k 20)), ⟨20, List.replicate (min k 20) 1000⟩, 1000⟩,
    ⟨14, 0, 0, some 100, min (k-1) 14, if k - 1 < 14 then 0 else 100⟩,
    0, 0⟩,
   ⟨⟨100, 2,
      ⟨100, qmul 100 (qofNat (min k 100)), ⟨100, List.replicate (min k 100) 100⟩, 100⟩,
      ⟨100, List.replicate (min k 100) 100⟩,
      ⟨100, 100, 100, qmk 1 2⟩⟩,
    ⟨20, 0, 0, some 100, min (k-1) 20, if k - 1 < 20 then 0 else 100⟩,
    ⟨20, ⟨20, List.replicate (min (k-1) 20) 0⟩, 0, 0, 0, 0, 0⟩,
    ⟨60, ⟨60, List.replicate (min (k-1) 60) 0⟩, 0, 0, 0, 0, 0⟩,
    100, 0⟩⟩

set_option maxRecDepth 100000

theorem c7run0 : (runAux envPin engineInit (c7chunk 0)).1 = c7state 50 := by decide!

theorem c7run1 : (runAux envPin (c7state 50) (c7chunk 1)).1 = c7state 100 := by decide!

theorem c7run2 : (runAux envPin (c7state 100) (c7chunk 2)).1 = c7state 150 := by decide!

theorem c7run3 : (runAux envPin (c7state 150) (c7chunk 3)).1 = c7state 200 := by decide!

theorem c7run4 : (runAux envPin (c7state 200) (c7chunk 4)).1 = c7state 250 := by decide!

theorem c7run5 : (runAux envPin (c7state 250) (c7chunk 5)).1 = c7state 300 := by decide!

theorem c7split : s1bars = c7chunk 0 ++ (c7chunk 1 ++ (c7chunk 2 ++ (c7chunk 3 ++
    (c7chunk 4 ++ (c7chunk 5 ++ s1bars.drop 300))))) := by decide!

/-- After bar 300 the S1 state is a fixed point of the per-bar step: only
the report's timestamp varies. -/
theorem c7_fixpoint (t : Int) :
    stepBar envPin (c7state 300) ⟨t, 100, 100, 100, 100, 1000⟩ =
      (c7state 300, ⟨t, false, false, 0, "HV_RANGE"⟩) := by
  have hopen : (c7state 300).exec.onBarOpen ⟨t, 100, 100, 100, 100, 1000⟩ =
      (c7state 300).exec := by
    unfold ExecutionEngine.onBarOpen
    dsimp only
    rw [if_neg (show ¬((c7state 300).exec.pending_order_side ≠ 0) by decide)]
  have hreg : RegimeStrategy.onBar envPin (c7state 300).regime ⟨t, 100, 100, 100, 100, 1000⟩ =
      (c7state 300).regime := by
    unfold RegimeStrategy.onBar
    dsimp only
    decide
  have hmom : MomentumStrategy.onBar envPin (c7state 300).momentum ⟨t, 100, 100, 100, 100, 1000⟩ =
      (c7state 300).momentum := by
    unfold MomentumStrategy.onBar
    dsimp only
    decide
  have hmr : MeanReversionStrategy.onBar envPin (c7state 300).meanrev ⟨t, 100, 100, 100, 100, 1000⟩ =
      (c7state 300).meanrev := by
    unfold MeanReversionStrategy.onBar
    dsimp only
    decide
  unfold stepBar
  dsimp only
  rw [hopen, hreg, hmom, hmr]
  rw [show (c7state 300).regime.current_regime = "HV_RANGE" from by decide]
  rw [if_neg (show ¬(("HV_RANGE" : String) = "LV_TREND" ∨ ("HV_RANGE" : String) = "HV_TREND") by decide),
    if_neg (show ¬(("HV_RANGE" : String) = "LV_RANGE") by decide)]
  simp only [show (c7state 300).exec.isInvested = false from by decide,
    Bool.false_eq_true, if_false]
  have hc1 : ¬((0 : Int) ≠ 0 ∧ ¬False) := by decide
  have hc2 : ¬(True ∧ False) := by decide
  simp only [if_neg hc1, if_neg hc2]
  rw [show (c7state 300).risk.updateCooldown = (c7state 300).risk from by decide]

theorem runAux_state_append (env : Env) (s : EngineState) (l1 l2 : List Bar) :
    (runAux env s (l1 ++ l2)).1 = (runAux env (runAux env s l1).1 l2).1 := by
  induction l1 generalizing s with
  | nil => rfl
  | cons b bs ih => exact ih (stepBar env s b).1

theorem runAux_cons_state (env : Env) (s : EngineState) (b : Bar) (bs : List Bar) :
    (runAux env s (b :: bs)).1 = (runAux env (stepBar env s b).1 bs).1 := rfl

theorem c7_runAux_fix : ∀ bars : List Bar,
    (∀ b ∈ bars, b.open_ = 100 ∧ b.high = 100 ∧ b.low = 100 ∧ b.close = 100 ∧
      b.volume = 1000) →
    (runAux envPin (c7state 300) bars).1 = c7state 300 := by
  intro bars
  induction bars with
  | nil => intro _; rfl
  | cons b bs ih =>
      intro h
      have hb := h b (List.mem_cons_self b bs)
      have hbs := fun b' hb' => h b' (List.mem_cons_of_mem b hb')
      obtain ⟨t, o, hi, lo, c, v⟩ := b
      obtain ⟨h1, h2, h3, h4, h5⟩ := hb
      dsimp only at h1 h2 h3 h4 h5
      subst h1 h2 h3 h4 h5
      rw [runAux_cons_state, c7_fixpoint t]
      exact ih hbs

/-- Final state of the S1 run: the staged 50-bar evaluations up to bar
300, then the fixed point. -/
theorem c7_final : (engineRun envPin s1bars).1 = c7state 300 := by
  have hshape : ∀ b ∈ s1bars, b.open_ = 100 ∧ b.high = 100 ∧ b.low = 100 ∧
      b.close = 100 ∧ b.volume = 1000 := by
    intro b hb
    unfold s1bars at hb
    rw [List.mem_map] at hb
    obtain ⟨i, -, rfl⟩ := hb
    exact ⟨rfl, rfl, rfl, rfl, rfl⟩
  show (runAux envPin engineInit s1bars).1 = _
  rw [c7split, runAux_state_append, c7run0, runAux_state_append, c7run1,
    runAux_state_append, c7run2, runAux_state_append, c7run3,
    runAux_state_append, c7run4, runAux_state_append, c7run5]
  exact c7_runAux_fix _ (fun b hb => hshape b (List.mem_of_mem_drop hb))

/-- C7 counterexample: after the 500 constant bars of S1 the regime
detector's indicators are all ready, yet the reported regime is
`HV_RANGE`, not `LV_RANGE` as the spec expects: both return stddevs are
exactly 0, so `low_vol := stddev(50) < stddev(200)` is `0 < 0 = false`
and the strict comparison lands in the high-volatility branch. -/
theorem constant_price_regime_counterexample :
    (engineRun envPin s1bars).1.regime.current_regime = "HV_RANGE" ∧
    (engineRun envPin s1bars).1.regime.vol_short.isReady = true ∧
    (engineRun envPin s1bars).1.regime.vol_long.isReady = true ∧
    (engineRun envPin s1bars).1.regime.sma_trend.isReady = true ∧
    ¬(engineRun envPin s1bars).1.regime.current_regime = "LV_RANGE" := by
  have h := c7_final
  refine ⟨?_, ?_, ?_, ?_, ?_⟩ <;> rw [h] <;> decide

/-- C7 (amended): scenario S1 (500 bars with OHLC 100.0, volume 1000)
produces 0 trades, final equity exactly 100000, flat position, and both
return stddevs exactly 0 — but the regime reads `HV_RANGE`, not
`LV_RANGE`, because `low_vol` is a strict comparison of two equal
stddevs. -/
theorem constant_price_scenario :
    (engineRun envPin s1bars).1.exec.trades = [] ∧
    (engineRun envPin s1bars).1.exec.getEquity 100 = 100000 ∧
    (engineRun envPin s1bars).1.exec.position = 0 ∧
    (engineRun envPin s1bars).1.regime.current_regime = "HV_RANGE" ∧
    (engineRun envPin s1bars).1.regime.vol_short.std_dev = 0 ∧
    (engineRun envPin s1bars).1.regime.vol_long.std_dev = 0 := by
  have h := c7_final
  refine ⟨?_, ?_, ?_, ?_, ?_, ?_⟩ <;> rw [h] <;> decide

/-! ### C5: daily trade cap -/

/-- `check_exit` never touches the trade-count bookkeeping. -/
theorem RiskManager.checkExit_keeps (s : RiskManager) (b : Bar) :
    (s.checkExit b).2.config = s.config ∧ (s.checkExit b).2.trades_today = s.trades_today ∧
    (s.checkExit b).2.last_trade_day = s.last_trade_day := by
  unfold RiskManager.checkExit
  dsimp only
  split_ifs <;> exact ⟨rfl, rfl, rfl⟩

/-- `on_exit` never touches the trade-count bookkeeping. -/
theorem RiskManager.onExit_keeps (s : RiskManager) (w : Bool) :
    (s.onExit w).config = s.config ∧ (s.onExit w).trades_today = s.trades_today ∧
    (s.onExit w).last_trade_day = s.last_trade_day := by
  unfold RiskManager.onExit
  dsimp only
  split_ifs <;> exact ⟨rfl, rfl, rfl⟩

/-- `update_cooldown` never touches the trade-count bookkeeping. -/
theorem RiskManager.updateCooldown_keeps (s : RiskManager) :
    s.updateCooldown.config = s.config ∧ s.updateCooldown.trades_today = s.trades_today ∧
    s.updateCooldown.last_trade_day = s.last_trade_day := by
  unfold RiskManager.updateCooldown
  split_ifs <;> exact ⟨rfl, rfl, rfl⟩

/-- `on_entry` increments the daily trade count and leaves the day
tracker alone. -/
theorem RiskManager.onEntry_keeps (s : RiskManager) (p a : ℚ) (sd : Int) :
    (s.onEntry p a sd).config = s.config ∧
    (s.onEntry p a sd).trades_today = s.trades_today + 1 ∧
    (s.onEntry p a sd).last_trade_day = s.last_trade_day := by
  unfold RiskManager.onEntry
  dsimp only
  exact ⟨rfl, rfl, rfl⟩

/-- Full characterization of `can_enter`: the day reset, the preserved
fields, and the decision (true iff the post-reset count is below the cap
and no cooldown is pending). -/
theorem RiskManager.canEnter_spec (env : Env) (s : RiskManager) (t : Int) :
    (s.canEnter env t).2.config = s.config ∧
    (s.canEnter env t).2.cooldown_counter = s.cooldown_counter ∧
    (s.canEnter env t).2.trades_today =
      (if env.dayOf t ≠ env.dayOf s.last_trade_day then 0 else s.trades_today) ∧
    (s.canEnter env t).2.last_trade_day =
      (if env.dayOf t ≠ env.dayOf s.last_trade_day then t else s.last_trade_day) ∧
    ((s.canEnter env t).1 = true ↔
      (s.canEnter env t).2.trades_today < s.config.max_trades_per_day ∧
      s.cooldown_counter ≤ 0) := by
  unfold RiskManager.canEnter RiskManager.isNewDay
  dsimp only
  simp only [decide_eq_true_eq]
  split_ifs <;>
    refine ⟨rfl, rfl, rfl, rfl, ?_⟩ <;>
    (try dsimp only at *) <;>
    constructor <;> intro h <;>
    first
      | rfl
      | omega
      | (exact absurd h (by simp))

/-- Number of reports in `rs` that record an entry on calendar day `D`. -/
def entriesOnDay (env : Env) (D : Int) (rs : List Report) : Nat :=
  (rs.filter (fun r => r.entered && (env.dayOf r.ts == D))).length

theorem entriesOnDay_cons (env : Env) (D : Int) (r : Report) (rs : List Report) :
    entriesOnDay env D (r :: rs) =
      (if r.entered && (env.dayOf r.ts == D) then 1 else 0) + entriesOnDay env D rs := by
  unfold entriesOnDay
  rw [List.filter_cons]
  split_ifs <;> simp [Nat.add_comm]

theorem entriesOnDay_zero_of_future (env : Env) (D : Int) (rs : List Report)
    (h : ∀ r ∈ rs, r.entered = true → env.dayOf r.ts ≠ D) :
    entriesOnDay env D rs = 0 := by
  unfold entriesOnDay
  rw [List.filter_eq_nil_iff.mpr]
  · rfl
  · intro r hr
    simp only [Bool.and_eq_true, beq_iff_eq, not_and]
    intro he
    exact fun hd => h r hr he hd

theorem stepBar_report_ts (env : Env) (s : EngineState) (b : Bar) :
    (stepBar env s b).2.ts = b.timestamp := rfl

theorem runAux_cons_reports (env : Env) (s : EngineState) (b : Bar) (bs : List Bar) :
    (runAux env s (b :: bs)).2 =
      (stepBar env s b).2 :: (runAux env (stepBar env s b).1 bs).2 := rfl

theorem runAux_reports_mem_ts (env : Env) : ∀ (bs : List Bar) (s : EngineState) (r : Report),
    r ∈ (runAux env s bs).2 → ∃ b ∈ bs, r.ts = b.timestamp := by
  intro bs
  induction bs with
  | nil => intro s r hr; exact absurd hr (by simp [runAux])
  | cons b bs ih =>
      intro s r hr
      rw [runAux_cons_reports] at hr
      rcases List.mem_cons.mp hr with h | h
      · exact ⟨b, List.mem_cons_self b bs, by rw [h, stepBar_report_ts]⟩
      · obtain ⟨b', hb', hts⟩ := ih _ r h
        exact ⟨b', List.mem_cons_of_mem b hb', hts⟩

/-- How one engine step treats the risk manager's daily bookkeeping:
either the counters are untouched, or `can_enter` was consulted (its day
reset persists) without an entry, or an entry happened, in which case the
post-reset count was strictly below the cap and is incremented. -/
theorem stepBar_risk_cases (env : Env) (s : EngineState) (b : Bar) :
    (stepBar env s b).1.risk.config = s.risk.config ∧
    (((stepBar env s b).2.entered = false ∧
      (stepBar env s b).1.risk.trades_today = s.risk.trades_today ∧
      (stepBar env s b).1.risk.last_trade_day = s.risk.last_trade_day) ∨
     ((stepBar env s b).2.entered = false ∧
      (stepBar env s b).1.risk.trades_today =
        (if env.dayOf b.timestamp ≠ env.dayOf s.risk.last_trade_day then 0
         else s.risk.trades_today) ∧
      (stepBar env s b).1.risk.last_trade_day =
        (if env.dayOf b.timestamp ≠ env.dayOf s.risk.last_trade_day then b.timestamp
         else s.risk.last_trade_day)) ∨
     ((stepBar env s b).2.entered = true ∧
      (if env.dayOf b.timestamp ≠ env.dayOf s.risk.last_trade_day then 0
       else s.risk.trades_today) < s.risk.config.max_trades_per_day ∧
      (stepBar env s b).1.risk.trades_today =
        (if env.dayOf b.timestamp ≠ env.dayOf s.risk.last_trade_day then 0
         else s.risk.trades_today) + 1 ∧
      (stepBar env s b).1.risk.last_trade_day =
        (if env.dayOf b.timestamp ≠ env.dayOf s.risk.last_trade_day then b.timestamp
         else s.risk.last_trade_day))) := by
  obtain ⟨p, hp⟩ : ∃ p, stepBar env s b = p := ⟨_, rfl⟩
  rw [hp]
  unfold stepBar at hp
  revert hp
  lift_lets
  extract_lets e1 ck e2 r2 stopExit reg mom mr signal ce qty e3 r3 entered r4
  intro hp
  obtain ⟨s', rep⟩ := p
  injection hp with hS hR
  subst hS hR
  dsimp only
  have hr2 : r2.config = s.risk.config ∧ r2.trades_today = s.risk.trades_today ∧
      r2.last_trade_day = s.risk.last_trade_day := by
    unfold r2 ck
    split_ifs
    · exact ⟨by rw [(RiskManager.onExit_keeps _ _).1, (RiskManager.checkExit_keeps _ _).1],
        by rw [(RiskManager.onExit_keeps _ _).2.1, (RiskManager.checkExit_keeps _ _).2.1],
        by rw [(RiskManager.onExit_keeps _ _).2.2, (RiskManager.checkExit_keeps _ _).2.2]⟩
    · exact RiskManager.checkExit_keeps s.risk b
    · exact ⟨rfl, rfl, rfl⟩
  have hce := RiskManager.canEnter_spec env r2 b.timestamp
  generalize hTT : (if env.dayOf b.timestamp ≠ env.dayOf s.risk.last_trade_day then (0 : Int)
    else s.risk.trades_today) = TT
  generalize hLTD : (if env.dayOf b.timestamp ≠ env.dayOf s.risk.last_trade_day then b.timestamp
    else s.risk.last_trade_day) = LTD
  unfold r4 entered r3
  simp only [RiskManager.updateCooldown_keeps]
  split_ifs with hC1 hce1 hC2
  · -- entry
    refine ⟨?_, Or.inr (Or.inr ⟨hce1, ?_, ?_, ?_⟩)⟩
    · unfold ce
      rw [(RiskManager.onEntry_keeps _ _ _ _).1, hce.1, hr2.1]
    · have h' := (hce.2.2.2.2.mp (by unfold ce at hce1; exact hce1)).1
      rw [hce.2.2.1, hr2.2.1, hr2.2.2, hr2.1, hTT] at h'
      exact h'
    · unfold ce
      rw [(RiskManager.onEntry_keeps _ _ _ _).2.1, hce.2.2.1, hr2.2.1, hr2.2.2, hTT]
    · unfold ce
      rw [(RiskManager.onEntry_keeps _ _ _ _).2.2, hce.2.2.2.1, hr2.2.2, hLTD]
  · -- attempted but denied: the day reset persists
    refine ⟨?_, Or.inr (Or.inl ⟨?_, ?_, ?_⟩)⟩
    · unfold ce
      rw [hce.1, hr2.1]
    · cases h : ce.1
      · rfl
      · exact absurd h hce1
    · unfold ce
      rw [hce.2.2.1, hr2.2.1, hr2.2.2, hTT]
    · unfold ce
      rw [hce.2.2.2.1, hr2.2.2, hLTD]
  · -- signal-driven exit: on_exit(true) keeps the counters
    refine ⟨?_, Or.inl ⟨rfl, ?_, ?_⟩⟩
    · rw [(RiskManager.onExit_keeps _ _).1, hr2.1]
    · rw [(RiskManager.onExit_keeps _ _).2.1, hr2.2.1]
    · rw [(RiskManager.onExit_keeps _ _).2.2, hr2.2.2]
  · -- idle bar
    exact ⟨hr2.1, Or.inl ⟨rfl, hr2.2.1, hr2.2.2⟩⟩

/-- Runs over bars that all lie on calendar days after `D` record no
entry on day `D`. -/
theorem entriesOnDay_runAux_zero (env : Env) (hmono : Monotone env.dayOf)
    (s : EngineState) (bs : List Bar) (D lo : Int) (hD : D < env.dayOf lo)
    (hge : ∀ b ∈ bs, lo ≤ b.timestamp) :
    entriesOnDay env D (runAux env s bs).2 = 0 := by
  apply entriesOnDay_zero_of_future
  intro r hr _
  obtain ⟨b, hb, hts⟩ := runAux_reports_mem_ts env bs s r hr
  rw [hts]
  have := hmono (hge b hb)
  omega

/-- Inductive daily-cap invariant: future entries on any day `D`, plus
the trades already counted for the currently tracked day, stay within the
configured cap. -/
theorem runAux_daily_cap (env : Env) (hmono : Monotone env.dayOf) :
    ∀ (bars : List Bar) (s : EngineState),
      bars.Pairwise (fun a b => a.timestamp ≤ b.timestamp) →
      (∀ b ∈ bars, s.risk.last_trade_day ≤ b.timestamp) →
      0 ≤ s.risk.trades_today →
      s.risk.trades_today ≤ s.risk.config.max_trades_per_day →
      ∀ D : Int,
        (entriesOnDay env D (runAux env s bars).2 : Int) +
          (if D = env.dayOf s.risk.last_trade_day then s.risk.trades_today else 0) ≤
        s.risk.config.max_trades_per_day := by
  intro bars
  induction bars with
  | nil =>
      intro s _ _ h0 hM D
      show (entriesOnDay env D [] : Int) + _ ≤ _
      unfold entriesOnDay
      simp only [List.filter_nil, List.length_nil, Nat.cast_zero, zero_add]
      split_ifs <;> omega
  | cons b bs ih =>
      intro s hpw hday h0 hM D
      have hhead : ∀ b' ∈ bs, b.timestamp ≤ b'.timestamp := (List.pairwise_cons.mp hpw).1
      have hpw' := (List.pairwise_cons.mp hpw).2
      have hdayb : s.risk.last_trade_day ≤ b.timestamp := hday b (List.mem_cons_self b bs)
      obtain ⟨hcfg, hcases⟩ := stepBar_risk_cases env s b
      have hltd : (stepBar env s b).1.risk.last_trade_day = s.risk.last_trade_day ∨
          (stepBar env s b).1.risk.last_trade_day = b.timestamp := by
        rcases hcases with ⟨-, -, h⟩ | ⟨-, -, h⟩ | ⟨-, -, -, h⟩
        · exact Or.inl h
        · rw [h]; split_ifs
          · exact Or.inr rfl
          · exact Or.inl rfl
        · rw [h]; split_ifs
          · exact Or.inr rfl
          · exact Or.inl rfl
      have hday' : ∀ b' ∈ bs, (stepBar env s b).1.risk.last_trade_day ≤ b'.timestamp := by
        intro b' hb'
        rcases hltd with h | h <;> rw [h]
        · exact le_trans hdayb (hhead b' hb')
        · exact hhead b' hb'
      have h0' : 0 ≤ (stepBar env s b).1.risk.trades_today := by
        rcases hcases with ⟨-, h, -⟩ | ⟨-, h, -⟩ | ⟨-, -, h, -⟩ <;> rw [h] <;>
          first | (split_ifs <;> omega) | omega
      have hM' : (stepBar env s b).1.risk.trades_today ≤
          (stepBar env s b).1.risk.config.max_trades_per_day := by
        rw [hcfg]
        rcases hcases with ⟨-, h, -⟩ | ⟨-, h, -⟩ | ⟨-, hc, h, -⟩ <;> rw [h] <;>
          first | (split_ifs at * <;> omega) | omega
      have hIH := ih ((stepBar env s b).1) hpw' hday' h0' hM'
      rw [runAux_cons_reports, entriesOnDay_cons, stepBar_report_ts]
      push_cast
      rcases hcases with ⟨hent, htt, hltd2⟩ | ⟨hent, htt, hltd2⟩ | ⟨hent, hcap, htt, hltd2⟩ <;>
        have hIHD := hIH D <;> rw [hcfg, htt, hltd2] at hIHD <;> rw [hent]
      · -- idle bar
        simp only [Bool.false_and, Bool.false_eq_true, if_false]
        omega
      · -- can_enter consulted, entry denied: only the day reset persists
        simp only [Bool.false_and, Bool.false_eq_true, if_false]
        by_cases hnd : env.dayOf b.timestamp ≠ env.dayOf s.risk.last_trade_day
        · rw [if_pos hnd, if_pos hnd] at hIHD
          by_cases hDold : D = env.dayOf s.risk.last_trade_day
          · have hzero : entriesOnDay env D (runAux env (stepBar env s b).1 bs).2 = 0 := by
              refine entriesOnDay_runAux_zero env hmono _ bs D b.timestamp ?_ hhead
              have := hmono hdayb
              omega
            rw [hzero, if_pos hDold]
            push_cast
            omega
          · rw [if_neg hDold]
            split_ifs at hIHD <;> omega
        · have heq : env.dayOf b.timestamp = env.dayOf s.risk.last_trade_day :=
            not_ne_iff.mp hnd
          rw [if_neg hnd, if_neg hnd] at hIHD
          by_cases hD : D = env.dayOf s.risk.last_trade_day
          · rw [if_pos hD] at hIHD
            rw [if_pos hD]
            omega
          · rw [if_neg hD] at hIHD
            rw [if_neg hD]
            omega
      · -- entry recorded
        simp only [Bool.true_and]
        by_cases hnd : env.dayOf b.timestamp ≠ env.dayOf s.risk.last_trade_day
        · rw [if_pos hnd, if_pos hnd] at hIHD
          rw [if_pos hnd] at hcap
          by_cases hDt : env.dayOf b.timestamp = D
          · rw [if_pos (beq_iff_eq.mpr hDt)]
            rw [if_pos (show D = env.dayOf b.timestamp by omega)] at hIHD
            rw [if_neg (show ¬(D = env.dayOf s.risk.last_trade_day) by omega)]
            omega
          · rw [if_neg (show ¬((env.dayOf b.timestamp == D) = true) by
              simp only [beq_iff_eq]; exact hDt)]
            rw [if_neg (show ¬(D = env.dayOf b.timestamp) by omega)] at hIHD
            by_cases hDold : D = env.dayOf s.risk.last_trade_day
            · have hzero : entriesOnDay env D (runAux env (stepBar env s b).1 bs).2 = 0 := by
                refine entriesOnDay_runAux_zero env hmono _ bs D b.timestamp ?_ hhead
                have := hmono hdayb
                omega
              rw [hzero, if_pos hDold]
              push_cast
              omega
            · rw [if_neg hDold]
              omega
        · have heq : env.dayOf b.timestamp = env.dayOf s.risk.last_trade_day :=
            not_ne_iff.mp hnd
          rw [if_neg hnd, if_neg hnd] at hIHD
          rw [if_neg hnd] at hcap
          by_cases hDt : env.dayOf b.timestamp = D
          · rw [if_pos (beq_iff_eq.mpr hDt)]
            rw [if_pos (show D = env.dayOf s.risk.last_trade_day by omega)] at hIHD
            rw [if_pos (show D = env.dayOf s.risk.last_trade_day by omega)]
            omega
          · rw [if_neg (show ¬((env.dayOf b.timestamp == D) = true) by
              simp only [beq_iff_eq]; exact hDt)]
            rw [if_neg (show ¬(D = env.dayOf s.risk.last_trade_day) by omega)] at hIHD
            rw [if_neg (show ¬(D = env.dayOf s.risk.last_trade_day) by omega)]
            omega

/-- C5: `can_enter` returns true iff the (day-reset) `trades_today` is
below `max_trades_per_day` and the churn cooldown is over; consequently,
in every engine run over chronologically ordered bars with nonnegative
timestamps, the number of entries recorded on any single calendar day
never exceeds `max_trades_per_day` (2 in `engineInit`'s configuration),
for any monotone civil-day classification. -/
theorem daily_trade_cap (env : Env) (hmono : Monotone env.dayOf) :
    (∀ (s : RiskManager) (t : Int), 0 ≤ s.cooldown_counter →
      ((s.canEnter env t).1 = true ↔
        (s.canEnter env t).2.trades_today < s.config.max_trades_per_day ∧
        s.cooldown_counter = 0)) ∧
    (∀ bars : List Bar,
      bars.Pairwise (fun a b => a.timestamp ≤ b.timestamp) →
      (∀ b ∈ bars, 0 ≤ b.timestamp) →
      ∀ D : Int,
        (entriesOnDay env D (engineRun env bars).2 : Int) ≤
          engineInit.risk.config.max_trades_per_day) := by
  constructor
  · intro s t hcd
    rw [(RiskManager.canEnter_spec env s t).2.2.2.2]
    constructor
    · exact fun h => ⟨h.1, by omega⟩
    · exact fun h => ⟨h.1, by omega⟩
  · intro bars hpw hpos D
    have h := runAux_daily_cap env hmono bars engineInit hpw
      (fun b hb => hpos b hb) (by decide) (by decide) D
    rw [show engineInit.risk.trades_today = (0 : Int) from rfl] at h
    show (entriesOnDay env D (runAux env engineInit bars).2 : Int) ≤ _
    split_ifs at h <;> omega

/-- Witness for C5 with the identity civil-day map on a fresh risk
manager and a one-bar run. -/
theorem daily_trade_cap_witness :
    ((RiskManager.mk0 ⟨2, qmk 1 10, 20, 5⟩).canEnter ⟨fun _ => 0, fun _ => 0, id⟩ 0).1 = true ∧
    (entriesOnDay ⟨fun _ => 0, fun _ => 0, id⟩ 0
        (engineRun ⟨fun _ => 0, fun _ => 0, id⟩ [⟨0, 100, 100, 100, 100, 1000⟩]).2 : Int) ≤
      engineInit.risk.config.max_trades_per_day := by
  constructor
  · rw [(daily_trade_cap ⟨fun _ => 0, fun _ => 0, id⟩ monotone_id).1
      (RiskManager.mk0 ⟨2, qmk 1 10, 20, 5⟩) 0 (by decide)]
    exact ⟨by decide, rfl⟩
  · exact (daily_trade_cap ⟨fun _ => 0, fun _ => 0, id⟩ monotone_id).2
      [⟨0, 100, 100, 100, 100, 1000⟩] (by simp) (by intro b hb; simp at hb; rw [hb]) 0

/-! ### C6: cooldown after losing exits -/

/-- Default report used with `List.getD` when indexing report lists. -/
def report0 : Report := ⟨0, false, false, 0, ""⟩

/-- A bar of day `i` with the given open/high/low/close and volume 1000. -/
def mkBar (i : Nat) (o h l c : ℚ) : Bar := ⟨(i : Int) * 86400, o, h, l, c, 1000⟩

/-- Action phase of the C6 run (bars 300-356, one per day): a one-bar jump
to `101.4` at bar 300 (volatility that stays in the long look-back windows
only), constant `100.0` through bar 352, a dip to `99.7` at bar 353 (the
long entry signal: the band position collapses below `-0.8` and the RSI
below 30 in the low-volatility regime), a slide to `99.45` at bar 354
(just outside the trend detector's 0.5 % band, so the regime leaves
`LV_RANGE` and the dispatched signal drops to 0 — a signal-driven exit),
and a return to `99.52` at bar 355 (back inside the band, with the entry
conditions still met). -/
def c6action : List Bar :=
  mkBar 300 (qmk 507 5) (qmk 507 5) (qmk 507 5) (qmk 507 5) ::
  (List.range 52).map (fun j => mkBar (301 + j) 100 100 100 100) ++
  [mkBar 353 (qmk 997 10) (qmk 997 10) (qmk 997 10) (qmk 997 10),
   mkBar 354 (qmk 399 4) (qmk 499 5) (qmk 497 5) (qmk 1989 20),
   mkBar 355 (qmk 199 2) (qmk 498 5) (qmk 497 5) (qmk 2488 25),
   mkBar 356 (qmk 2488 25) (qmk 2488 25) (qmk 2488 25) (qmk 2488 25)]

/-- The C6 input: the 300-bar constant warmup of S1 followed by the action
phase. -/
def c6bars : List Bar :=
  c7chunk 0 ++ (c7chunk 1 ++ (c7chunk 2 ++ (c7chunk 3 ++ (c7chunk 4 ++
    (c7chunk 5 ++ c6action)))))

/-- Report lists concatenate over a split of the bar list, with the second
leg run from the state the first leg reaches. -/
theorem runAux_reports_append (env : Env) (s : EngineState) (l1 l2 : List Bar) :
    (runAux env s (l1 ++ l2)).2 =
      (runAux env s l1).2 ++ (runAux env (runAux env s l1).1 l2).2 := by
  induction l1 generalizing s with
  | nil => rfl
  | cons b bs ih =>
      rw [List.cons_append, runAux_cons_reports, ih (stepBar env s b).1,
        runAux_cons_reports, runAux_cons_state, List.cons_append]

/-- `check_exit` leaves the cooldown counter alone. -/
theorem RiskManager.checkExit_cooldown (s : RiskManager) (b : Bar) :
    (s.checkExit b).2.cooldown_counter = s.cooldown_counter := by
  unfold RiskManager.checkExit
  dsimp only
  split_ifs <;> rfl

/-- `on_exit` after a win keeps the cooldown counter. -/
theorem RiskManager.onExit_true_cooldown (s : RiskManager) :
    (s.onExit true).cooldown_counter = s.cooldown_counter := rfl

/-- `on_exit` after a loss arms the cooldown with `cooldown_bars`. -/
theorem RiskManager.onExit_false_cooldown (s : RiskManager) :
    (s.onExit false).cooldown_counter = s.config.cooldown_bars := rfl

/-- `on_entry` leaves the cooldown counter alone. -/
theorem RiskManager.onEntry_cooldown (s : RiskManager) (p a : ℚ) (sd : Int) :
    (s.onEntry p a sd).cooldown_counter = s.cooldown_counter := rfl

/-- The exact effect of `update_cooldown` on the counter. -/
theorem RiskManager.updateCooldown_cd (s : RiskManager) :
    s.updateCooldown.cooldown_counter =
      (if s.cooldown_counter > 0 then s.cooldown_counter - 1
       else s.cooldown_counter) := by
  unfold RiskManager.updateCooldown
  split_ifs <;> rfl

/-- How one engine bar moves the churn cooldown: a recorded entry needs
the cooldown to be over beforehand; a stop exit rearms it to
`cooldown_bars` (and records no entry), leaving `cooldown_bars - 1` after
the end-of-bar decrement; otherwise the counter drops by at most one and
never rises. -/
theorem stepBar_cooldown_facts (env : Env) (s : EngineState) (b : Bar) :
    ((stepBar env s b).2.entered = true → s.risk.cooldown_counter ≤ 0) ∧
    ((stepBar env s b).2.stopExit = true →
      (stepBar env s b).2.entered = false ∧
      (stepBar env s b).1.risk.cooldown_counter =
        (if s.risk.config.cooldown_bars > 0 then s.risk.config.cooldown_bars - 1
         else s.risk.config.cooldown_bars)) ∧
    ((stepBar env s b).2.stopExit = false →
      s.risk.cooldown_counter - 1 ≤ (stepBar env s b).1.risk.cooldown_counter ∧
      (stepBar env s b).1.risk.cooldown_counter ≤ s.risk.cooldown_counter) := by
  obtain ⟨p, hp⟩ : ∃ p, stepBar env s b = p := ⟨_, rfl⟩
  rw [hp]
  unfold stepBar at hp
  revert hp
  lift_lets
  extract_lets e1 ck e2 r2 stopExit reg mom mr signal ce qty e3 r3 entered r4
  intro hp
  obtain ⟨s', rep⟩ := p
  injection hp with hS hR
  subst hS hR
  dsimp only
  have he2 : e2.isInvested = e1.isInvested := by
    unfold e2
    split_ifs
    · unfold ExecutionEngine.isInvested
      rw [ExecutionEngine.closePosition_position]
    · rfl
    · rfl
  refine ⟨?_, ?_, ?_⟩
  · -- a recorded entry requires the pre-bar cooldown to be over
    intro hent
    unfold entered at hent
    split_ifs at hent with hC1
    have hr2eq : r2 = s.risk := by
      unfold r2
      rw [if_neg (fun h => hC1.2 (by rw [he2]; exact h))]
    have h := ((RiskManager.canEnter_spec env r2 b.timestamp).2.2.2.2.mp
      (by unfold ce at hent; exact hent)).2
    rw [hr2eq] at h
    exact h
  · -- stop exit: no entry this bar, cooldown rearmed then decremented once
    intro hse
    unfold stopExit at hse
    split_ifs at hse with hInv
    have hinv2 : e2.isInvested = true := by rw [he2]; exact hInv
    constructor
    · unfold entered
      split_ifs with hC1
      · exact (hC1.2 hinv2).elim
      · rfl
    · have hr2cd : r2.cooldown_counter = s.risk.config.cooldown_bars := by
        unfold r2
        rw [if_pos hInv, if_pos hse, RiskManager.onExit_false_cooldown]
        show (s.risk.checkExit b).2.config.cooldown_bars = _
        rw [(RiskManager.checkExit_keeps s.risk b).1]
      have hr3cd : r3.cooldown_counter = s.risk.config.cooldown_bars := by
        unfold r3
        split_ifs with hC1 hce1 hC2
        · exact (hC1.2 hinv2).elim
        · exact (hC1.2 hinv2).elim
        · rw [RiskManager.onExit_true_cooldown, hr2cd]
        · exact hr2cd
      unfold r4
      rw [RiskManager.updateCooldown_cd, hr3cd]
  · -- no stop exit: the counter moves down by at most one, never up
    intro hse
    unfold stopExit at hse
    have hr2cd : r2.cooldown_counter = s.risk.cooldown_counter := by
      unfold r2
      split_ifs with h1 h2
      · rw [if_pos h1] at hse
        exact absurd h2 (by simp [hse])
      · exact RiskManager.checkExit_cooldown s.risk b
      · rfl
    have hr3cd : r3.cooldown_counter = s.risk.cooldown_counter := by
      unfold r3
      split_ifs with hC1 hce1 hC2
      · rw [RiskManager.onEntry_cooldown]
        show (r2.canEnter env b.timestamp).2.cooldown_counter = _
        rw [(RiskManager.canEnter_spec env r2 b.timestamp).2.1, hr2cd]
      · show (r2.canEnter env b.timestamp).2.cooldown_counter = _
        rw [(RiskManager.canEnter_spec env r2 b.timestamp).2.1, hr2cd]
      · rw [RiskManager.onExit_true_cooldown, hr2cd]
      · exact hr2cd
    unfold r4
    rw [RiskManager.updateCooldown_cd, hr3cd]
    constructor <;> split_ifs <;> omega

/-- While the churn cooldown is still positive, at least that many bars
must pass before any entry can be recorded. -/
theorem entries_blocked (env : Env) : ∀ (bs : List Bar) (s : EngineState) (k : Nat),
    (k : Int) < s.risk.cooldown_counter →
    s.risk.cooldown_counter ≤ s.risk.config.cooldown_bars →
    ((runAux env s bs).2.getD k report0).entered = false := by
  intro bs
  induction bs with
  | nil => intro s k _ _; simp [runAux, report0]
  | cons b bs ih =>
      intro s k h1 h2
      have hfacts := stepBar_cooldown_facts env s b
      have hcfg := (stepBar_risk_cases env s b).1
      rw [runAux_cons_reports]
      cases k with
      | zero =>
          rw [List.getD_cons_zero]
          cases hent : (stepBar env s b).2.entered
          · rfl
          · have := hfacts.1 hent
            omega
      | succ j =>
          rw [List.getD_cons_succ]
          refine ih (stepBar env s b).1 j ?_ ?_
          · cases hse : (stepBar env s b).2.stopExit
            · have := hfacts.2.2 hse
              omega
            · have := (hfacts.2.1 hse).2
              rw [this]
              split_ifs <;> omega
          · cases hse : (stepBar env s b).2.stopExit
            · have := hfacts.2.2 hse
              rw [hcfg]
              omega
            · have := (hfacts.2.1 hse).2
              rw [this, hcfg]
              split_ifs <;> omega

/-- C6 (amended): the churn cooldown protects stop-driven exits.  In any
run segment started in a state whose cooldown does not exceed the
configured `cooldown_bars` (as holds for every run from the initial
state, where it is 0 <= 5), if the bar-`i` report flags a stop exit then
no entry is recorded at any bar `i + k` with `k < cooldown_bars`: the
stop path calls `on_exit(false)`, which arms `cooldown_counter =
cooldown_bars`, and `can_enter` refuses while the counter is positive.
(The claim's stronger reading — the same window after every *losing*
exit — is refuted by `cooldown_after_loss_counterexample`: a losing exit
triggered by a signal flip calls `on_exit(true)` and arms nothing.) -/
theorem stop_exit_cooldown (env : Env) : ∀ (bars : List Bar) (s : EngineState) (i k : Nat),
    s.risk.cooldown_counter ≤ s.risk.config.cooldown_bars →
    (k : Int) < s.risk.config.cooldown_bars →
    ((runAux env s bars).2.getD i report0).stopExit = true →
    ((runAux env s bars).2.getD (i + k) report0).entered = false := by
  intro bars
  induction bars with
  | nil => intro s i k _ _ hstop; exact absurd hstop (by simp [runAux, report0])
  | cons b bs ih =>
      intro s i k hcd hk hstop
      have hfacts := stepBar_cooldown_facts env s b
      have hcfg := (stepBar_risk_cases env s b).1
      rw [runAux_cons_reports] at hstop ⊢
      cases i with
      | zero =>
          rw [List.getD_cons_zero] at hstop
          obtain ⟨hent0, hcd'⟩ := hfacts.2.1 hstop
          cases k with
          | zero => rw [List.getD_cons_zero]; exact hent0
          | succ j =>
              rw [show 0 + (j + 1) = j + 1 from by omega, List.getD_cons_succ]
              refine entries_blocked env bs (stepBar env s b).1 j ?_ ?_
              · rw [hcd']
                split_ifs <;> omega
              · rw [hcfg, hcd']
                split_ifs <;> omega
      | succ m =>
          rw [List.getD_cons_succ] at hstop
          rw [show m + 1 + k = (m + k) + 1 from by omega, List.getD_cons_succ]
          refine ih (stepBar env s b).1 m k ?_ ?_ hstop
          · cases hse : (stepBar env s b).2.stopExit
            · have := hfacts.2.2 hse
              rw [hcfg]
              omega
            · have := (hfacts.2.1 hse).2
              rw [this, hcfg]
              split_ifs <;> omega
          · rw [hcfg]
            exact hk

/-- A state holding one long unit with an armed stop at 95, used to
witness the stop-exit cooldown window on a concrete two-bar run. -/
def c6wstate : EngineState :=
  ⟨{ ExecutionEngine.mk0 100000 with position := 1, position_side := 1 },
   ⟨⟨2, qmk 1 10, 20, 5⟩, 1, 100, 95, 100, 100, 1, 0, 0, 0⟩,
   RegimeStrategy.mk0, MomentumStrategy.mk0, MeanReversionStrategy.mk0⟩

def c6wbars : List Bar := [⟨0, 100, 100, 90, 90, 1000⟩, ⟨86400, 100, 100, 90, 90, 1000⟩]

theorem stop_exit_cooldown_witness :
    c6wstate.risk.cooldown_counter ≤ c6wstate.risk.config.cooldown_bars ∧
    ((1 : Nat) : Int) < c6wstate.risk.config.cooldown_bars ∧
    ((runAux envZero c6wstate c6wbars).2.getD 0 report0).stopExit = true ∧
    ((runAux envZero c6wstate c6wbars).2.getD (0 + 1) report0).entered = false :=
  ⟨by decide, by decide, by decide,
   stop_exit_cooldown envZero c6wbars c6wstate 0 1 (by decide) (by decide) (by decide)⟩

/-- Kernel evaluation of the C6 action phase from the bar-300 state: the
single closed trade of the run (entered at bar 354's open 99.75, closed
at bar 355's open 99.50, a loss of 50000/997), and bar 355's report,
which records a fresh entry on the very bar the losing trade closes. -/
theorem cooldown_c6tail :
    (runAux envPin (c7state 300) c6action).1.exec.trades =
      [⟨30585600, 30672000, qmk 399 4, qmk 199 2, 1, qmk (-50000) 997⟩] ∧
    (⟨30672000, false, true, 1, "LV_RANGE"⟩ : Report) ∈
      (runAux envPin (c7state 300) c6action).2 := by decide!

/-- C6 counterexample: a losing exit that does not come from the stop
path arms no cooldown.  In the concrete run `c6bars` the only closed
trade loses 50000/997 (entry 99.75, exit 99.50) and exits at timestamp
30672000 (bar 355, when the pending close fills at the open); the report
of that same bar already records a new entry — 0 bars, not
`cooldown_bars = 5`, after a losing exit — because the exit was
signal-driven and `Engine::run` calls `on_exit(true)` regardless of the
trade's pnl. -/
theorem cooldown_after_loss_counterexample :
    (engineRun envPin c6bars).1.exec.trades =
      [⟨30585600, 30672000, qmk 399 4, qmk 199 2, 1, qmk (-50000) 997⟩] ∧
    qlt (qmk (-50000) 997) 0 = true ∧
    (⟨30672000, false, true, 1, "LV_RANGE"⟩ : Report) ∈ (engineRun envPin c6bars).2 ∧
    engineInit.risk.config.cooldown_bars = 5 := by
  have hstate : (engineRun envPin c6bars).1 = (runAux envPin (c7state 300) c6action).1 := by
    show (runAux envPin engineInit c6bars).1 = _
    unfold c6bars
    rw [runAux_state_append, c7run0, runAux_state_append, c7run1,
      runAux_state_append, c7run2, runAux_state_append, c7run3,
      runAux_state_append, c7run4, runAux_state_append, c7run5]
  have hrep : (engineRun envPin c6bars).2 =
      (runAux envPin engineInit (c7chunk 0)).2 ++
      ((runAux envPin (c7state 50) (c7chunk 1)).2 ++
       ((runAux envPin (c7state 100) (c7chunk 2)).2 ++
        ((runAux envPin (c7state 150) (c7chunk 3)).2 ++
         ((runAux envPin (c7state 200) (c7chunk 4)).2 ++
          ((runAux envPin (c7state 250) (c7chunk 5)).2 ++
           (runAux envPin (c7state 300) c6action).2))))) := by
    show (runAux envPin engineInit c6bars).2 = _
    unfold c6bars
    rw [runAux_reports_append, c7run0, runAux_reports_append, c7run1,
      runAux_reports_append, c7run2, runAux_reports_append, c7run3,
      runAux_reports_append, c7run4, runAux_reports_append, c7run5]
  refine ⟨by rw [hstate]; exact cooldown_c6tail.1, by decide, ?_, by decide⟩
  rw [hrep]
  exact List.mem_append_right _ (List.mem_append_right _ (List.mem_append_right _
    (List.mem_append_right _ (List.mem_append_right _ (List.mem_append_right _
      cooldown_c6tail.2)))))

end Quant
